import Mathlib

/-!
Agricultural ledger contracts: a shallow embedding.

The repository holds four chaincode modules (data-storage, defi, monitoring,
supply-chain) written against the Hyperledger Fabric contract API.  Each
handler reads the committed world state through the stub, stages writes, and
returns an error or nil.

Modelling decisions, shared by all modules:

* Go `string` is `String`.  Go `float64` is IEEE 754 binary64: `Finite64` holds
  the bit fields of a finite value, `Float64` adds the infinities and NaN, and
  `+`, `-` and `<` round to nearest, ties to even, and overflow to an infinity.
  A handler argument of type `float64` is any `Float64`; a statement that needs
  a finite argument passes a `Finite64`.
* A stored payload is a JSON document (`Payload`); the text level of
  `encoding/json` is not modelled, so a number token stands for the float64 it
  reads as.  `json.Marshal` of a record with a float64 field fails on an
  infinity or NaN; on the string-only records it cannot fail.
* The stub is a record: the committed world state at the read snapshot plus
  fault oracles saying which stub calls fail.  `PutState` / `DelState` only
  stage writes; a handler returns the staged writes together with its result,
  and the host commits the writes when the result is nil.  The stub operations
  follow the Fabric chaincode shim that the modules import (simple keys, the
  composite-key namespace, range scans); the shim is not part of the repository.
* `time.Now().String()` is read from a `Clock`: reading number `n` of one
  handler execution is `now n`.
-/

deriving instance DecidableEq for Except

/-! ## float64 -/

/-- A finite Go `float64`, by its IEEE 754 binary64 fields: the sign bit, the
biased exponent (0 for zero and the subnormal values, 1 to 2046 for the normal
ones) and the 52 fraction bits. -/
structure Finite64 where
  sign : Bool
  expo : Fin 2047
  frac : Fin 4503599627370496
  deriving DecidableEq

/-- A Go `float64`: a finite value, an infinity, or NaN (the NaN payloads are
one value). -/
inductive Float64 where
  | finite (x : Finite64)
  | posInf
  | negInf
  | nan
  deriving DecidableEq

/-- The rational number a finite `float64` denotes: `frac * 2^-1074` when the
exponent field is 0, `(2^52 + frac) * 2^(expo - 1075)` otherwise, with its
sign. -/
def Finite64.toRat (x : Finite64) : ℚ :=
  let mag : ℚ :=
    ((if x.expo.val = 0 then x.frac.val
      else (4503599627370496 + x.frac.val) * 2 ^ (x.expo.val - 1) : ℕ) : ℚ)
      / ((2 ^ 1074 : ℕ) : ℚ)
  if x.sign then -mag else mag

/-- Positive zero, the Go constant `0.0`. -/
def Finite64.zero : Finite64 := { sign := false, expo := 0, frac := 0 }

/-- The number of halvings that bring `n` below 2, with `fuel` bounding the
recursion. -/
def log2Aux : ℕ → ℕ → ℕ
  | 0, _ => 0
  | fuel + 1, n => if n < 2 then 0 else log2Aux fuel (n / 2) + 1

/-- The position of the leading bit of `n` (0 for `n < 2`). -/
def log2 (n : ℕ) : ℕ := log2Aux n n

/-- The integer part of the base-2 logarithm of `n / d`, for positive `n`, `d`. -/
def floorLog2 (n d : ℕ) : ℤ :=
  let k : ℤ := (log2 n : ℤ) - (log2 d : ℤ)
  if 0 ≤ k then (if d * 2 ^ k.toNat ≤ n then k else k - 1)
  else (if d ≤ n * 2 ^ (-k).toNat then k else k - 1)

/-- The integer nearest to `n / d`, the even one of two equally near. -/
def roundHalfEven (n d : ℕ) : ℕ :=
  if 2 * (n % d) < d then n / d
  else if d < 2 * (n % d) then n / d + 1
  else if (n / d) % 2 = 0 then n / d else n / d + 1

/-- Rounding of an exact value to `float64`, to nearest with ties to even: the
value is cut to 53 significant bits, or to a multiple of `2^-1074` below the
normal range, and becomes an infinity when the rounded magnitude reaches
`2^1024`. -/
def Float64.round (q : ℚ) : Float64 :=
  if q = 0 then .finite Finite64.zero
  else
    let n := q.num.natAbs
    let d := q.den
    let p : ℤ := max (floorLog2 n d) (-1022) - 52
    let m :=
      if 0 ≤ p then roundHalfEven n (d * 2 ^ p.toNat) else roundHalfEven (n * 2 ^ (-p).toNat) d
    let m' := if m = 9007199254740992 then 4503599627370496 else m
    let p' := if m = 9007199254740992 then p + 1 else p
    if m' < 4503599627370496 then
      .finite { sign := decide (q < 0), expo := 0, frac := Fin.ofNat m' }
    else if 2047 ≤ p' + 1075 then (if q < 0 then .negInf else .posInf)
    else
      .finite { sign := decide (q < 0), expo := Fin.ofNat (p' + 1075).toNat,
                frac := Fin.ofNat (m' - 4503599627370496) }

/-- The `float64` a decimal constant of the source stands for. -/
def Float64.lit (q : ℚ) : Float64 := Float64.round q

/-- The finite `float64` nearest to a decimal in the `float64` range (positive
zero for a decimal that rounds to an infinity). -/
def Finite64.lit (q : ℚ) : Finite64 :=
  match Float64.round q with
  | .finite x => x
  | _ => Finite64.zero

/-- Go unary minus on `float64`. -/
def Float64.neg : Float64 → Float64
  | .finite x => .finite { x with sign := !x.sign }
  | .posInf => .negInf
  | .negInf => .posInf
  | .nan => .nan

/-- Go `+` on `float64`: the exact sum, rounded; an exact zero sum is positive
zero unless both operands are negative zero. -/
def Float64.add : Float64 → Float64 → Float64
  | .nan, _ => .nan
  | _, .nan => .nan
  | .posInf, .negInf => .nan
  | .negInf, .posInf => .nan
  | .posInf, _ => .posInf
  | _, .posInf => .posInf
  | .negInf, _ => .negInf
  | _, .negInf => .negInf
  | .finite x, .finite y =>
    if x.toRat + y.toRat = 0 then .finite { sign := x.sign && y.sign, expo := 0, frac := 0 }
    else Float64.round (x.toRat + y.toRat)

/-- Go `-` on `float64`. -/
def Float64.sub (a b : Float64) : Float64 := a.add b.neg

/-- Go `<` on `float64`: false when an operand is NaN. -/
def Float64.lt : Float64 → Float64 → Bool
  | .nan, _ => false
  | _, .nan => false
  | .finite x, .finite y => decide (x.toRat < y.toRat)
  | .negInf, .negInf => false
  | .negInf, _ => true
  | _, .negInf => false
  | .posInf, _ => false
  | _, .posInf => true

/-- Go `0 <= a` on `float64`: false when `a` is NaN. -/
def Float64.nonneg : Float64 → Bool
  | .finite x => decide (0 ≤ x.toRat)
  | .posInf => true
  | .negInf => false
  | .nan => false

/-! ## JSON documents -/

/-- A JSON value, as far as a decoder into a flat struct can tell values apart.
A number token is given by the finite `float64` it reads as; `bigNum` is a number
token outside the `float64` range, with its text. -/
inductive JVal where
  | null
  | bool (b : Bool)
  | num (x : Finite64)
  | bigNum (literal : String)
  | str (s : String)
  | array
  | object
  deriving DecidableEq

/-- The name `encoding/json` gives the kind of a value in a type error. -/
def JVal.kind : JVal → String
  | .null => "null"
  | .bool _ => "bool"
  | .num _ => "number"
  | .bigNum literal => "number " ++ literal
  | .str _ => "string"
  | .array => "array"
  | .object => "object"

/-- A stored byte payload, parsed: bytes that are not JSON (with the syntax
error the decoder reports for them), a JSON value that is not an object, or a
JSON object given by its members in order. -/
inductive Payload where
  | malformed (raw : String) (syntaxError : String)
  | value (v : JVal)
  | object (fields : List (String × JVal))
  deriving DecidableEq

/-- ASCII case folding of a member name, used when no field matches exactly. -/
def foldName (s : String) : List Char := s.toList.map Char.toLower

/-- Go `json.Unmarshal` into a `string` field: null leaves the field alone, a JSON
string sets it, anything else is a type error. -/
def setString (field : String) (v : JVal) (old : String) : Except String String :=
  match v with
  | .null => .ok old
  | .str s => .ok s
  | other =>
    .error ("json: cannot unmarshal " ++ other.kind ++ " into Go struct field " ++ field
      ++ " of type string")

/-- Go `json.Unmarshal` into a `float64` field: null leaves the field alone, a
number in range sets it, anything else is a type error. -/
def setFloat (field : String) (v : JVal) (old : Float64) : Except String Float64 :=
  match v with
  | .null => .ok old
  | .num x => .ok (.finite x)
  | other =>
    .error ("json: cannot unmarshal " ++ other.kind ++ " into Go struct field " ++ field
      ++ " of type float64")

/-- Go `json.Marshal` of a `float64` field: infinities and NaN are unsupported
values. -/
def marshalFloat64 : Float64 → Except String JVal
  | .finite x => .ok (.num x)
  | .posInf => .error "json: unsupported value: +Inf"
  | .negInf => .error "json: unsupported value: -Inf"
  | .nan => .error "json: unsupported value: NaN"

/-- Go `json.Unmarshal` into a struct: the top-level document must be an object
(or null, which leaves the zero value). -/
def unmarshalStruct {α : Type} (typeName : String) (zero : α)
    (fields : List (String × JVal) → α → Except String α) (p : Payload) : Except String α :=
  match p with
  | .malformed _ syntaxError => .error syntaxError
  | .value .null => .ok zero
  | .value other =>
    .error ("json: cannot unmarshal " ++ other.kind ++ " into Go value of type " ++ typeName)
  | .object fs => fields fs zero

/-- Which struct field a JSON member name addresses: the field whose name is
exactly the member name, else the first field equal to it up to case. -/
def fieldIndex (names : List String) (key : String) : Option Nat :=
  match names.findIdx? (fun n => n = key) with
  | some i => some i
  | none => names.findIdx? (fun n => foldName n = foldName key)

/-- Decode the members of a JSON object into a struct value, in order; members
that address no field are skipped, the first type error ends the decoding. -/
def decodeFields {α : Type} (names : List String) (set : Nat → JVal → α → Except String α) :
    List (String × JVal) → α → Except String α
  | [], r => .ok r
  | (k, v) :: rest, r =>
    match fieldIndex names k with
    | none => decodeFields names set rest r
    | some i =>
      match set i v r with
      | .error e => .error e
      | .ok r' => decodeFields names set rest r'

/-! ## World state and stub -/

/-- Key order of the ledger: byte by byte, which for UTF-8 text is code point
by code point. -/
def keyLt (a b : String) : Prop := a.toList < b.toList

instance (a b : String) : Decidable (keyLt a b) :=
  inferInstanceAs (Decidable (a.toList < b.toList))

/-- The committed world state: key/payload pairs, kept in key order. -/
abbrev WorldState := List (String × Payload)

namespace WorldState

/-- The payload stored under a key, if any. -/
def get : WorldState → String → Option Payload
  | [], _ => none
  | (k, v) :: rest, key => if key = k then some v else get rest key

/-- Store a payload under a key, replacing what was there. -/
def put : WorldState → String → Payload → WorldState
  | [], key, v => [(key, v)]
  | (k, w) :: rest, key, v =>
    if key = k then (key, v) :: rest
    else if keyLt key k then (key, v) :: (k, w) :: rest
    else (k, w) :: put rest key v

/-- Remove a key. -/
def del : WorldState → String → WorldState
  | [], _ => []
  | (k, w) :: rest, key => if key = k then del rest key else (k, w) :: del rest key

end WorldState

/-- A staged write of one transaction. -/
inductive Write where
  | put (key : String) (value : Payload)
  | del (key : String)
  deriving DecidableEq

/-- Commit the staged writes of a successful transaction, in staging order. -/
def applyWrites : WorldState → List Write → WorldState
  | s, [] => s
  | s, .put k v :: rest => applyWrites (s.put k v) rest
  | s, .del k :: rest => applyWrites (s.del k) rest

/-- One entry of the per-key commit log handed out by `GetHistoryForKey`:
`value = none` is an empty payload; `timestamp` is the protobuf timestamp
(seconds, nanos), absent when the message field is nil. -/
structure KeyModification where
  txId : String
  value : Option Payload
  timestamp : Option (Int × Int)
  isDelete : Bool
  deriving DecidableEq

/-- The ledger stub seen by one handler execution: the committed state, the
commit logs, and for each call the error it returns, if any. -/
structure Stub where
  state : WorldState
  history : String → List KeyModification
  getErr : String → Option String
  putErr : String → Option String
  delErr : String → Option String
  rangeErr : Option String
  historyErr : String → Option String

/-- A stub over a world state whose calls fail only where the shim itself
refuses them: `PutState` does not take the empty key. -/
def Stub.healthy (s : WorldState) (h : String → List KeyModification) : Stub :=
  { state := s, history := h, getErr := fun _ => none,
    putErr := fun key => if key = "" then some "key must not be an empty string" else none,
    delErr := fun _ => none, rangeErr := none, historyErr := fun _ => none }

/-- Stub `GetState`: nil for an absent key. -/
def Stub.GetState (stub : Stub) (key : String) : Except String (Option Payload) :=
  match stub.getErr key with
  | some e => .error e
  | none => .ok (stub.state.get key)

/-- What a handler execution leaves behind: the writes it staged and its result. -/
structure Outcome (α : Type) where
  writes : List Write
  result : Except String α

/-- Stub `PutState` as the last call of a handler: stage the write after `staged`. -/
def Stub.PutState (stub : Stub) (staged : List Write) (key : String) (value : Payload) :
    Outcome Unit :=
  match stub.putErr key with
  | some e => ⟨staged, .error e⟩
  | none => ⟨staged ++ [.put key value], .ok ()⟩

/-- Stub `DelState` as the last call of a handler. -/
def Stub.DelState (stub : Stub) (staged : List Write) (key : String) : Outcome Unit :=
  match stub.delErr key with
  | some e => ⟨staged, .error e⟩
  | none => ⟨staged ++ [.del key], .ok ()⟩

/-- Sequencing after a stub write: a failed write ends the handler with what
was staged before it. -/
def Outcome.andThen {β : Type} (o : Outcome Unit) (next : List Write → Outcome β) : Outcome β :=
  match o.result with
  | .error e => ⟨o.writes, .error e⟩
  | .ok _ => next o.writes

/-- Stub `GetStateByRange`: the simple keys from `startKey` up to, not including,
`endKey`, in key order.  An empty start stands for the first simple key, so
composite keys (which begin with U+0000) are never listed; an empty end is
unbounded; a bound in the composite-key namespace is refused. -/
def Stub.GetStateByRange (stub : Stub) (startKey endKey : String) :
    Except String (List (String × Payload)) :=
  let first := if startKey = "" then String.singleton (Char.ofNat 1) else startKey
  if first.toList.head? = some (Char.ofNat 0) ∨ endKey.toList.head? = some (Char.ofNat 0) then
    .error "first character of the key contains a null character which is not allowed"
  else
    match stub.rangeErr with
    | some e => .error e
    | none =>
      .ok (stub.state.filter fun kv => ¬ keyLt kv.1 first ∧ (endKey = "" ∨ keyLt kv.1 endKey))

/-- Stub `CreateCompositeKey`: the namespace mark U+0000, the object type, and
each attribute, every part closed by U+0000.  Parts holding U+0000 or U+10FFFF are
refused. -/
def createCompositeKey (objectType : String) (attributes : List String) : Except String String :=
  if (objectType :: attributes).any
      (fun part => part.toList.any fun c => c = Char.ofNat 0 ∨ c = Char.ofNat 0x10FFFF) then
    .error "input contains unicode U+0000 or U+10FFFF which is not allowed"
  else
    .ok (attributes.foldl (fun ck att => ck ++ att ++ String.singleton (Char.ofNat 0))
      (String.singleton (Char.ofNat 0) ++ objectType ++ String.singleton (Char.ofNat 0)))

/-- Stub `GetStateByPartialCompositeKey`: the keys from the partial composite key
up to, not including, that key followed by U+10FFFF. -/
def Stub.GetStateByPartialCompositeKey (stub : Stub) (objectType : String)
    (attributes : List String) : Except String (List (String × Payload)) :=
  match createCompositeKey objectType attributes with
  | .error e => .error e
  | .ok partialKey =>
    match stub.rangeErr with
    | some e => .error e
    | none =>
      let endKey := partialKey ++ String.singleton (Char.ofNat 0x10FFFF)
      .ok (stub.state.filter fun kv => ¬ keyLt kv.1 partialKey ∧ keyLt kv.1 endKey)

/-- Stub `GetHistoryForKey`: the commit log of one key. -/
def Stub.GetHistoryForKey (stub : Stub) (key : String) : Except String (List KeyModification) :=
  match stub.historyErr key with
  | some e => .error e
  | none => .ok (stub.history key)

/-- The `for resultsIterator.HasNext()` loop of the scanning handlers: run the
loop body on each item the iterator yields and append what it produces; the
first failure ends the handler. -/
def iterLoop {ι ρ : Type} (body : ι → Except String ρ) :
    List ι → List ρ → Except String (List ρ)
  | [], records => .ok records
  | response :: rest, records =>
    match body response with
    | .error err => .error err
    | .ok record => iterLoop body rest (records ++ [record])

/-- Readings of the peer's wall clock, `time.Now().String()`, in call order. -/
abbrev Clock := Nat → String

/-- The state the host holds after a handler ran: writes are committed only
when the handler returned nil. -/
def commit {α : Type} (s : WorldState) (o : Outcome α) : WorldState :=
  match o.result with
  | .ok _ => applyWrites s o.writes
  | .error _ => s

/-- The committed states a contract can move to from `s₀`: each step is one
successful call, dispatched by `run`, with arguments satisfying `allowed`; every
call runs with its own clock and its own stub faults over the committed state. -/
inductive Steps {Call : Type} (run : Stub → Clock → Call → Outcome Unit)
    (allowed : Call → Prop) (s₀ : WorldState) : WorldState → Prop where
  | start : Steps run allowed s₀ s₀
  | step (stub : Stub) (now : Clock) (call : Call) :
      Steps run allowed s₀ stub.state → allowed call → (run stub now call).result = .ok () →
      Steps run allowed s₀ (commit stub.state (run stub now call))

/-- Package `ptypes.Timestamp`: a protobuf timestamp converts when it is present,
its seconds lie between years 1 and 9999, and its nanos are below one second. -/
def ptypesTimestamp (ts : Option (Int × Int)) : Except String (Int × Int) :=
  match ts with
  | none => .error "timestamp: nil Timestamp"
  | some (secs, nanos) =>
    if secs < -62135596800 then .error "timestamp: before 0001-01-01"
    else if secs ≥ 253402300800 then .error "timestamp: after 10000-01-01"
    else if nanos < 0 ∨ nanos ≥ 1000000000 then .error "timestamp: nanos not in range [0, 1e9)"
    else .ok (secs, nanos)

/-- The history result struct every module declares (`CropHistoryQueryResult`,
`HistoryQueryResult`), over the module's record type. -/
structure HistoryEntry (ρ : Type) where
  record : ρ
  txId : String
  timestamp : Int × Int
  isDelete : Bool
  deriving DecidableEq

/-- The loop body every history handler runs on one commit: decode a non-empty
value, or take the placeholder record when the value is empty; convert the
timestamp; build the entry. -/
def projectCommit {ρ : Type} (unmarshal : Payload → Except String ρ) (placeholder : ρ)
    (response : KeyModification) : Except String (HistoryEntry ρ) :=
  let decoded : Except String ρ :=
    match response.value with
    | some value => unmarshal value
    | none => .ok placeholder
  match decoded with
  | .error err => .error err
  | .ok record =>
    match ptypesTimestamp response.timestamp with
    | .error err => .error err
    | .ok timestamp =>
      .ok { record := record, txId := response.txId, timestamp := timestamp,
            isDelete := response.isDelete }

/-! ## The host ledger -/

/-- The key a staged write addresses. -/
def Write.key : Write → String
  | .put k _ => k
  | .del k => k

/-- Modelled from the spec: the write set of a transaction (the host is not part
of the repository); for each key, the last write staged for it. -/
def finalWrites : List Write → List Write
  | [] => []
  | w :: rest =>
    if rest.any (fun w' => w'.key = w.key) then finalWrites rest else w :: finalWrites rest

/-- Modelled from the spec: the commit-log entry a committed write leaves for its
key (the host is not part of the repository); a put carries its payload, a delete
is a tombstone with an empty payload and `isDelete = true`. -/
def Write.modification (txId : String) (ts : Int × Int) : Write → String × KeyModification
  | .put k v => (k, { txId := txId, value := some v, timestamp := some ts, isDelete := false })
  | .del k => (k, { txId := txId, value := none, timestamp := some ts, isDelete := true })

/-- Modelled from the spec: the host ledger, which is not part of the
repository; the world state, and the commit log of all keys, oldest commit first. -/
structure Ledger where
  state : WorldState
  log : List (String × KeyModification)

/-- The ledger before any transaction. -/
def Ledger.empty : Ledger := { state := [], log := [] }

/-- Modelled from the spec: `HistoryFor(key)` of the host, the commit log of one
key, oldest to newest, deletions included. -/
def Ledger.history (l : Ledger) (key : String) : List KeyModification :=
  (l.log.filter fun e => e.1 = key).map fun e => e.2

/-- The stub a handler sees over a ledger when no stub call fails. -/
def Ledger.stub (l : Ledger) : Stub := Stub.healthy l.state l.history

/-- Modelled from the spec: the host committing a transaction with the given id
and timestamp; a failed handler leaves the ledger alone, a successful one has its
writes applied and logged. -/
def Ledger.commit (l : Ledger) (txId : String) (ts : Int × Int) (o : Outcome Unit) : Ledger :=
  match o.result with
  | .error _ => l
  | .ok _ =>
    { state := applyWrites l.state o.writes,
      log := l.log ++ (finalWrites o.writes).map (Write.modification txId ts) }

/-! ## What the specification asks of a history projection -/

/-- Every non-empty value of the commit log decodes. -/
def Decodes {ρ : Type} (unmarshal : Payload → Except String ρ) (log : List KeyModification) :
    Prop :=
  ∀ c ∈ log, ∀ v, c.value = some v → ∃ r, unmarshal v = .ok r

/-- Every timestamp of the commit log converts. -/
def Converts (log : List KeyModification) : Prop :=
  ∀ c ∈ log, ∃ t, ptypesTimestamp c.timestamp = .ok t

/-- The entries are the commit log, commit by commit and in the same order: as
many entries as commits, and entry `i` carries the txId, the delete flag and the
converted timestamp of commit `i`, and the decoded value of commit `i` when that
value is not empty. -/
def IsProjection {ρ : Type} (unmarshal : Payload → Except String ρ)
    (log : List KeyModification) (entries : List (HistoryEntry ρ)) : Prop :=
  entries.length = log.length ∧
  List.Forall₂ (fun c e => e.txId = c.txId ∧ e.isDelete = c.isDelete ∧
    ptypesTimestamp c.timestamp = .ok e.timestamp ∧
    ∀ v, c.value = some v → unmarshal v = .ok e.record) log entries

/-- The entry of every commit with an empty payload holds the placeholder record
and the delete flag of the commit. -/
def TombstonesKept {ρ : Type} (placeholder : ρ)
    (log : List KeyModification) (entries : List (HistoryEntry ρ)) : Prop :=
  List.Forall₂ (fun c e => c.value = none → e.record = placeholder ∧ e.isDelete = c.isDelete)
    log entries


/-! ## defi module -/

namespace Defi

structure CropBalance where
  farmer : String
  cropAmount : Float64
  timestamp : String
  deriving DecidableEq

structure PlantingInfo where
  farmer : String
  plantedAmount : Float64
  yield : Float64
  timestamp : String
  deriving DecidableEq

abbrev CropHistoryQueryResult := HistoryEntry CropBalance

/-- The JSON document of a `CropBalance` with a finite amount. -/
def cropBalanceJSON (farmer : String) (cropAmount : Finite64) (timestamp : String) : Payload :=
  .object [("farmer", .str farmer), ("cropAmount", .num cropAmount),
    ("timestamp", .str timestamp)]

/-- Go `json.Marshal` of a `CropBalance`: fails when the amount is an infinity or
NaN. -/
def marshalCropBalance (c : CropBalance) : Except String Payload :=
  match marshalFloat64 c.cropAmount with
  | .error err => .error err
  | .ok cropAmount =>
    .ok (.object [("farmer", .str c.farmer), ("cropAmount", cropAmount),
      ("timestamp", .str c.timestamp)])

/-- The JSON document of a `PlantingInfo` with finite amounts. -/
def plantingInfoJSON (farmer : String) (plantedAmount yield : Finite64) (timestamp : String) :
    Payload :=
  .object [("farmer", .str farmer), ("plantedAmount", .num plantedAmount),
    ("yield", .num yield), ("timestamp", .str timestamp)]

/-- Go `json.Marshal` of a `PlantingInfo`: fails on the first field that is an
infinity or NaN. -/
def marshalPlantingInfo (p : PlantingInfo) : Except String Payload :=
  match marshalFloat64 p.plantedAmount with
  | .error err => .error err
  | .ok plantedAmount =>
    match marshalFloat64 p.yield with
    | .error err => .error err
    | .ok yield =>
      .ok (.object [("farmer", .str p.farmer), ("plantedAmount", plantedAmount),
        ("yield", yield), ("timestamp", .str p.timestamp)])

/-- Assign one JSON member to the `CropBalance` field with the given index. -/
def setCropBalanceField (i : Nat) (v : JVal) (c : CropBalance) : Except String CropBalance :=
  match i with
  | 0 => (setString "CropBalance.farmer" v c.farmer).map fun s => { c with farmer := s }
  | 1 => (setFloat "CropBalance.cropAmount" v c.cropAmount).map fun q => { c with cropAmount := q }
  | _ => (setString "CropBalance.timestamp" v c.timestamp).map fun s => { c with timestamp := s }

/-- Go `json.Unmarshal(payload, &crops)` with `crops` a zero `CropBalance`. -/
def unmarshalCropBalance (p : Payload) : Except String CropBalance :=
  unmarshalStruct "chaincode.CropBalance" ⟨"", .finite Finite64.zero, ""⟩
    (decodeFields ["farmer", "cropAmount", "timestamp"] setCropBalanceField) p

/-- Assign one JSON member to the `PlantingInfo` field with the given index. -/
def setPlantingInfoField (i : Nat) (v : JVal) (p : PlantingInfo) : Except String PlantingInfo :=
  match i with
  | 0 => (setString "PlantingInfo.farmer" v p.farmer).map fun s => { p with farmer := s }
  | 1 => (setFloat "PlantingInfo.plantedAmount" v p.plantedAmount).map fun q =>
      { p with plantedAmount := q }
  | 2 => (setFloat "PlantingInfo.yield" v p.yield).map fun q => { p with yield := q }
  | _ => (setString "PlantingInfo.timestamp" v p.timestamp).map fun s => { p with timestamp := s }

/-- Go `json.Unmarshal(payload, &planting)` with `planting` a zero `PlantingInfo`. -/
def unmarshalPlantingInfo (p : Payload) : Except String PlantingInfo :=
  unmarshalStruct "chaincode.PlantingInfo" ⟨"", .finite Finite64.zero, .finite Finite64.zero, ""⟩
    (decodeFields ["farmer", "plantedAmount", "yield", "timestamp"] setPlantingInfoField) p

/-- The `for _, crop := range crops` loop of `InitLedger`. -/
def initLoop (stub : Stub) : List CropBalance → List Write → Outcome Unit
  | [], staged => ⟨staged, .ok ()⟩
  | crop :: rest, staged =>
    match marshalCropBalance crop with
    | .error err => ⟨staged, .error err⟩
    | .ok cropJSON =>
      match stub.putErr crop.farmer with
      | some err =>
        ⟨staged, .error ("failed to put crops for " ++ crop.farmer ++ " to world state: " ++ err)⟩
      | none => initLoop stub rest (staged ++ [.put crop.farmer cropJSON])

def InitLedger (stub : Stub) (now : Clock) : Outcome Unit :=
  initLoop stub
    [⟨"Farmer1", Float64.lit 1000.0, now 0⟩, ⟨"Farmer2", Float64.lit 500.0, now 1⟩] []

def GetCropBalance (stub : Stub) (farmer : String) : Except String CropBalance :=
  match stub.GetState farmer with
  | .error err => .error ("failed to read crops from world state: " ++ err)
  | .ok none => .error ("the crop balance for " ++ farmer ++ " doesn't exist")
  | .ok (some cropJSON) => unmarshalCropBalance cropJSON

/-- The balance a handler goes on with when a failed read is answered by a fresh
zero balance: the record, and how many clock readings were spent on it. -/
def orNewBalance (stub : Stub) (now : Clock) (farmer : String) : CropBalance × Nat :=
  match GetCropBalance stub farmer with
  | .error _ => (⟨farmer, Float64.lit 0.0, now 0⟩, 1)
  | .ok crops => (crops, 0)

def HarvestCrops (stub : Stub) (now : Clock) (farmer : String) (amount : Float64) :
    Outcome Unit :=
  let crops := orNewBalance stub now farmer
  let crops' : CropBalance :=
    { crops.1 with cropAmount := crops.1.cropAmount.add amount,
                   timestamp := now crops.2 }
  match marshalCropBalance crops' with
  | .error err => ⟨[], .error err⟩
  | .ok cropJSON => stub.PutState [] farmer cropJSON

def DistributeCrops (stub : Stub) (now : Clock) (from_ to_ : String) (amount : Float64) :
    Outcome Unit :=
  match GetCropBalance stub from_ with
  | .error err => ⟨[], .error ("failed to get crops for " ++ from_ ++ ": " ++ err)⟩
  | .ok fromCrops =>
    if fromCrops.cropAmount.lt amount then
      ⟨[], .error (from_ ++ " doesn't have enough crops")⟩
    else
      let toCrops := orNewBalance stub now to_
      let fromCrops' : CropBalance :=
        { fromCrops with cropAmount := fromCrops.cropAmount.sub amount,
                         timestamp := now toCrops.2 }
      let toCrops' : CropBalance :=
        { toCrops.1 with cropAmount := toCrops.1.cropAmount.add amount,
                         timestamp := now (toCrops.2 + 1) }
      match marshalCropBalance fromCrops' with
      | .error err => ⟨[], .error err⟩
      | .ok fromJSON =>
        match marshalCropBalance toCrops' with
        | .error err => ⟨[], .error err⟩
        | .ok toJSON =>
          (stub.PutState [] from_ fromJSON).andThen fun staged =>
            stub.PutState staged to_ toJSON

def DiscardSpoiledCrops (stub : Stub) (now : Clock) (farmer : String) (amount : Float64) :
    Outcome Unit :=
  match GetCropBalance stub farmer with
  | .error err => ⟨[], .error ("failed to get crops for " ++ farmer ++ ": " ++ err)⟩
  | .ok crops =>
    if crops.cropAmount.lt amount then
      ⟨[], .error (farmer ++ " doesn't have enough crops to discard")⟩
    else
      match marshalCropBalance
          { crops with cropAmount := crops.cropAmount.sub amount,
                       timestamp := now 0 } with
      | .error err => ⟨[], .error err⟩
      | .ok cropJSON => stub.PutState [] farmer cropJSON

def GetAllCropBalances (stub : Stub) : Except String (List CropBalance) :=
  match stub.GetStateByRange "" "" with
  | .error err => .error err
  | .ok results => iterLoop (fun queryResponse => unmarshalCropBalance queryResponse.2) results []

def GetCropHistory (stub : Stub) (farmer : String) :
    Except String (List CropHistoryQueryResult) :=
  match stub.GetHistoryForKey farmer with
  | .error err => .error err
  | .ok responses =>
    iterLoop
      (projectCommit unmarshalCropBalance
        { farmer := farmer, cropAmount := .finite Finite64.zero, timestamp := "" })
      responses []

def PlantCrops (stub : Stub) (now : Clock) (farmer : String) (amount : Float64) :
    Outcome Unit :=
  match GetCropBalance stub farmer with
  | .error err => ⟨[], .error ("failed to get crops for " ++ farmer ++ ": " ++ err)⟩
  | .ok crops =>
    if crops.cropAmount.lt amount then
      ⟨[], .error (farmer ++ " doesn't have enough crops to plant")⟩
    else
      match marshalCropBalance
          { crops with cropAmount := crops.cropAmount.sub amount,
                       timestamp := now 0 } with
      | .error err => ⟨[], .error err⟩
      | .ok cropJSON =>
        (stub.PutState [] farmer cropJSON).andThen fun staged =>
          let plantingKey := "Planting_" ++ farmer ++ "_" ++ now 1
          let plantingInfo : PlantingInfo :=
            { farmer := farmer, plantedAmount := amount, yield := Float64.lit 0.0,
              timestamp := now 2 }
          match marshalPlantingInfo plantingInfo with
          | .error err => ⟨staged, .error err⟩
          | .ok plantingJSON => stub.PutState staged plantingKey plantingJSON

def HarvestPlantedCrops (stub : Stub) (now : Clock) (farmer : String) (amount : Float64) :
    Outcome Unit :=
  match GetCropBalance stub farmer with
  | .error err => ⟨[], .error ("failed to get crops for " ++ farmer ++ ": " ++ err)⟩
  | .ok crops =>
    match marshalCropBalance
        { crops with cropAmount := crops.cropAmount.add amount,
                     timestamp := now 0 } with
    | .error err => ⟨[], .error err⟩
    | .ok cropJSON => stub.PutState [] farmer cropJSON

def GetPlantingInfo (stub : Stub) (farmer : String) : Except String (List PlantingInfo) :=
  match stub.GetStateByPartialCompositeKey "Planting" [farmer] with
  | .error err => .error err
  | .ok results => iterLoop (fun response => unmarshalPlantingInfo response.2) results []

/-- The quantity balance(F) of a committed state: the `cropAmount` that
`GetCropBalance` reads through a stub that does not fail; none when the read
returns an error. -/
def balance (s : WorldState) (farmer : String) : Option Finite64 :=
  match GetCropBalance (Stub.healthy s fun _ => []) farmer with
  | .ok crops =>
    match crops.cropAmount with
    | .finite x => some x
    | _ => none
  | .error _ => none

/-- A call of one of the state-changing defi handlers, with its arguments. -/
inductive Call where
  | initLedger
  | harvestCrops (farmer : String) (amount : Float64)
  | distributeCrops (from_ to_ : String) (amount : Float64)
  | discardSpoiledCrops (farmer : String) (amount : Float64)
  | plantCrops (farmer : String) (amount : Float64)
  | harvestPlantedCrops (farmer : String) (amount : Float64)

/-- Dispatch of a call to its handler. -/
def run (stub : Stub) (now : Clock) : Call → Outcome Unit
  | .initLedger => InitLedger stub now
  | .harvestCrops farmer amount => HarvestCrops stub now farmer amount
  | .distributeCrops from_ to_ amount => DistributeCrops stub now from_ to_ amount
  | .discardSpoiledCrops farmer amount => DiscardSpoiledCrops stub now farmer amount
  | .plantCrops farmer amount => PlantCrops stub now farmer amount
  | .harvestPlantedCrops farmer amount => HarvestPlantedCrops stub now farmer amount

/-- The amount argument of a call (`InitLedger` has none). -/
def Call.amount : Call → Float64
  | .initLedger => .finite Finite64.zero
  | .harvestCrops _ amount => amount
  | .distributeCrops _ _ amount => amount
  | .discardSpoiledCrops _ amount => amount
  | .plantCrops _ amount => amount
  | .harvestPlantedCrops _ amount => amount

/-- World states reachable from the empty ledger by successful handler calls
with arbitrary arguments. -/
def Reachable (s : WorldState) : Prop := Steps run (fun _ => True) [] s

/-- World states reachable from the empty ledger by successful handler calls
whose amounts are not negative. -/
def ReachableNonneg (s : WorldState) : Prop :=
  Steps run (fun call => call.amount.nonneg = true) [] s

/-- The ledger after `InitLedger` ran on the empty ledger. -/
def seeded : WorldState := commit [] (InitLedger (Stub.healthy [] fun _ => []) fun _ => "t0")

/-- Scenario 3 of the specification: `InitLedger`, then Farmer1 hands 400 to Farmer2. -/
def afterTransfer : WorldState :=
  commit seeded
    (DistributeCrops (Stub.healthy seeded fun _ => []) (fun _ => "t1") "Farmer1" "Farmer2"
      (Float64.lit 400))

/-- Scenario 4 of the specification: `InitLedger`, then Farmer1 plants 100. -/
def afterPlanting : WorldState :=
  commit seeded
    (PlantCrops (Stub.healthy seeded fun _ => []) (fun _ => "t1") "Farmer1" (Float64.lit 100))

/-- A harvest of -5 for Farmer1 on the empty ledger. -/
def afterNegativeHarvest : WorldState :=
  commit []
    (HarvestCrops (Stub.healthy [] fun _ => []) (fun _ => "t0") "Farmer1" (Float64.lit (-5)))

/-- The ledger after farmers A and B each harvested 1e308 on the empty ledger. -/
def nearOverflow : WorldState :=
  commit
    (commit []
      (HarvestCrops (Stub.healthy [] fun _ => []) (fun _ => "t0") "A" (Float64.lit 1e308)))
    (HarvestCrops
      (Stub.healthy
        (commit []
          (HarvestCrops (Stub.healthy [] fun _ => []) (fun _ => "t0") "A" (Float64.lit 1e308)))
        fun _ => [])
      (fun _ => "t1") "B" (Float64.lit 1e308))

/-- A stub over the seeded ledger whose `GetState` fails for Farmer1 and for no
other key; every other call works. -/
def failingRead : Stub :=
  { Stub.healthy seeded (fun _ => []) with
    getErr := fun key => if key = "Farmer1" then some "ledger read failed" else none }

/-- A world state in which the key Farmer1 holds bytes that are not JSON. -/
def corrupted : WorldState :=
  [("Farmer1", .malformed "not json" "invalid character 'o' in literal null (expecting 'u')")]

/-- The sum of all balances of a world state: the `cropAmount` of every stored
payload that decodes as a `CropBalance` with a finite amount. -/
def totalBalance (s : WorldState) : ℚ :=
  (s.map fun kv =>
    match unmarshalCropBalance kv.2 with
    | .ok crops =>
      match crops.cropAmount with
      | .finite x => x.toRat
      | _ => 0
    | .error _ => 0).sum

/-- `InitLedger`, then Farmer1 hands 400 to Farmer1. -/
def afterSelfTransfer : WorldState :=
  commit seeded
    (DistributeCrops (Stub.healthy seeded fun _ => []) (fun _ => "t1") "Farmer1" "Farmer1"
      (Float64.lit 400))

end Defi

/-! ## data-storage module -/

namespace DataStorage

structure CropRecord where
  id : String
  data : String
  timestamp : String
  deriving DecidableEq

abbrev CropHistoryQueryResult := HistoryEntry CropRecord

/-- Go `json.Marshal` of a `CropRecord`. -/
def marshalCropRecord (c : CropRecord) : Payload :=
  .object [("id", .str c.id), ("data", .str c.data), ("timestamp", .str c.timestamp)]

/-- Assign one JSON member to the `CropRecord` field with the given index. -/
def setCropRecordField (i : Nat) (v : JVal) (c : CropRecord) : Except String CropRecord :=
  match i with
  | 0 => (setString "CropRecord.id" v c.id).map fun s => { c with id := s }
  | 1 => (setString "CropRecord.data" v c.data).map fun s => { c with data := s }
  | _ => (setString "CropRecord.timestamp" v c.timestamp).map fun s => { c with timestamp := s }

/-- Go `json.Unmarshal(payload, &crop)` with `crop` a zero `CropRecord`. -/
def unmarshalCropRecord (p : Payload) : Except String CropRecord :=
  unmarshalStruct "chaincode.CropRecord" ⟨"", "", ""⟩
    (decodeFields ["id", "data", "timestamp"] setCropRecordField) p

/-- The `for _, crop := range crops` loop of `InitFarm`. -/
def initLoop (stub : Stub) : List CropRecord → List Write → Outcome Unit
  | [], staged => ⟨staged, .ok ()⟩
  | crop :: rest, staged =>
    match stub.putErr crop.id with
    | some err =>
      ⟨staged, .error ("failed to store crop record " ++ crop.id ++ " in the world state: " ++ err)⟩
    | none => initLoop stub rest (staged ++ [.put crop.id (marshalCropRecord crop)])

def InitFarm (stub : Stub) (now : Clock) : Outcome Unit :=
  initLoop stub [⟨"Crop1", "Initial Crop Data 1", now 0⟩, ⟨"Crop2", "Initial Crop Data 2", now 1⟩] []

def CropExists (stub : Stub) (id : String) : Except String Bool :=
  match stub.GetState id with
  | .error err => .error ("failed to read crop record from world state: " ++ err)
  | .ok crop => .ok crop.isSome

def PlantCrop (stub : Stub) (now : Clock) (id data : String) : Outcome Unit :=
  match CropExists stub id with
  | .error err => ⟨[], .error err⟩
  | .ok found =>
    if found then ⟨[], .error ("the crop record " ++ id ++ " already exists")⟩
    else stub.PutState [] id (marshalCropRecord { id := id, data := data, timestamp := now 0 })

def UpdateCrop (stub : Stub) (now : Clock) (id data : String) : Outcome Unit :=
  match CropExists stub id with
  | .error err => ⟨[], .error err⟩
  | .ok found =>
    if !found then ⟨[], .error ("the crop record " ++ id ++ " does not exist")⟩
    else stub.PutState [] id (marshalCropRecord { id := id, data := data, timestamp := now 0 })

def GetAllCrops (stub : Stub) : Except String (List CropRecord) :=
  match stub.GetStateByRange "" "" with
  | .error err => .error err
  | .ok results => iterLoop (fun queryResponse => unmarshalCropRecord queryResponse.2) results []

def GetCropHistory (stub : Stub) (id : String) : Except String (List CropHistoryQueryResult) :=
  match stub.GetHistoryForKey id with
  | .error err => .error err
  | .ok responses =>
    iterLoop (projectCommit unmarshalCropRecord { id := id, data := "", timestamp := "" })
      responses []

def RemoveCrop (stub : Stub) (id : String) : Outcome Unit :=
  match CropExists stub id with
  | .error err => ⟨[], .error err⟩
  | .ok found =>
    if !found then ⟨[], .error ("the crop record " ++ id ++ " does not exist")⟩
    else stub.DelState [] id

/-- A call of one of the state-changing data-storage handlers. -/
inductive Call where
  | initFarm
  | plantCrop (id data : String)
  | updateCrop (id data : String)
  | removeCrop (id : String)

/-- Dispatch of a call to its handler. -/
def run (stub : Stub) (now : Clock) : Call → Outcome Unit
  | .initFarm => InitFarm stub now
  | .plantCrop id data => PlantCrop stub now id data
  | .updateCrop id data => UpdateCrop stub now id data
  | .removeCrop id => RemoveCrop stub id

/-- World states reachable from the empty ledger by successful handler calls. -/
def Reachable (s : WorldState) : Prop := Steps run (fun _ => True) [] s

/-- The ledger after `PlantCrop("X", "d")` committed as transaction tx1. -/
def afterPlant : Ledger :=
  Ledger.empty.commit "tx1" (1700000000, 0) (PlantCrop Ledger.empty.stub (fun _ => "t1") "X" "d")

/-- The ledger after `PlantCrop("X", "d")` and then `RemoveCrop("X")` as tx2. -/
def afterRemove : Ledger :=
  afterPlant.commit "tx2" (1700000060, 0) (RemoveCrop afterPlant.stub "X")

/-- A stub whose commit log of X is one delete commit that carries no timestamp. -/
def tombstoneWithoutTime : Stub :=
  Stub.healthy [] fun _ =>
    [{ txId := "tx1", value := none, timestamp := none, isDelete := true }]

/-- A stub whose commit log of X is a commit of bytes that are not JSON, followed by a
delete commit. -/
def tombstoneAfterGarbage : Stub :=
  Stub.healthy [] fun _ =>
    [{ txId := "tx1", value := some (.malformed "\x7b" "unexpected end of JSON input"),
       timestamp := some (1700000000, 0), isDelete := false },
     { txId := "tx2", value := none, timestamp := some (1700000060, 0), isDelete := true }]

end DataStorage

/-! ## monitoring module -/

namespace Monitoring

structure CropRecord where
  id : String
  cropType : String
  yield : Float64
  timestamp : String
  deriving DecidableEq

abbrev CropHistoryQueryResult := HistoryEntry CropRecord

/-- The JSON document of a `CropRecord` with a finite yield. -/
def cropRecordJSON (id cropType : String) (yield : Finite64) (timestamp : String) : Payload :=
  .object [("id", .str id), ("cropType", .str cropType), ("yield", .num yield),
    ("timestamp", .str timestamp)]

/-- Go `json.Marshal` of a `CropRecord`: fails when the yield is an infinity or
NaN. -/
def marshalCropRecord (c : CropRecord) : Except String Payload :=
  match marshalFloat64 c.yield with
  | .error err => .error err
  | .ok yield =>
    .ok (.object [("id", .str c.id), ("cropType", .str c.cropType), ("yield", yield),
      ("timestamp", .str c.timestamp)])

/-- Assign one JSON member to the `CropRecord` field with the given index. -/
def setCropRecordField (i : Nat) (v : JVal) (c : CropRecord) : Except String CropRecord :=
  match i with
  | 0 => (setString "CropRecord.id" v c.id).map fun s => { c with id := s }
  | 1 => (setString "CropRecord.cropType" v c.cropType).map fun s => { c with cropType := s }
  | 2 => (setFloat "CropRecord.yield" v c.yield).map fun q => { c with yield := q }
  | _ => (setString "CropRecord.timestamp" v c.timestamp).map fun s => { c with timestamp := s }

/-- Go `json.Unmarshal(payload, &record)` with `record` a zero `CropRecord`. -/
def unmarshalCropRecord (p : Payload) : Except String CropRecord :=
  unmarshalStruct "chaincode.CropRecord" ⟨"", "", .finite Finite64.zero, ""⟩
    (decodeFields ["id", "cropType", "yield", "timestamp"] setCropRecordField) p

/-- The `for _, record := range records` loop of `InitLedger`. -/
def initLoop (stub : Stub) : List CropRecord → List Write → Outcome Unit
  | [], staged => ⟨staged, .ok ()⟩
  | record :: rest, staged =>
    match marshalCropRecord record with
    | .error err => ⟨staged, .error err⟩
    | .ok recordJSON =>
      match stub.putErr record.id with
      | some err =>
        ⟨staged,
          .error ("failed to put crop record " ++ record.id ++ " to world state: " ++ err)⟩
      | none => initLoop stub rest (staged ++ [.put record.id recordJSON])

def InitLedger (stub : Stub) (now : Clock) : Outcome Unit :=
  initLoop stub
    [⟨"Crop1", "Wheat", Float64.lit 150.5, now 0⟩, ⟨"Crop2", "Corn", Float64.lit 200.2, now 1⟩] []

def CropRecordExists (stub : Stub) (id : String) : Except String Bool :=
  match stub.GetState id with
  | .error err => .error ("failed to read crop record from world state: " ++ err)
  | .ok record => .ok record.isSome

def AddCropRecord (stub : Stub) (now : Clock) (id cropType : String) (yield : Float64) :
    Outcome Unit :=
  match CropRecordExists stub id with
  | .error err => ⟨[], .error err⟩
  | .ok found =>
    if found then ⟨[], .error ("the crop record " ++ id ++ " already exists")⟩
    else
      match marshalCropRecord
          { id := id, cropType := cropType, yield := yield, timestamp := now 0 } with
      | .error err => ⟨[], .error err⟩
      | .ok recordJSON => stub.PutState [] id recordJSON

def UpdateCropRecord (stub : Stub) (now : Clock) (id cropType : String) (yield : Float64) :
    Outcome Unit :=
  match CropRecordExists stub id with
  | .error err => ⟨[], .error err⟩
  | .ok found =>
    if !found then ⟨[], .error ("the crop record " ++ id ++ " does not exist")⟩
    else
      match marshalCropRecord
          { id := id, cropType := cropType, yield := yield, timestamp := now 0 } with
      | .error err => ⟨[], .error err⟩
      | .ok recordJSON => stub.PutState [] id recordJSON

def GetCropRecord (stub : Stub) (id : String) : Except String CropRecord :=
  match stub.GetState id with
  | .error err => .error ("failed to read crop record from world state: " ++ err)
  | .ok none => .error ("the crop record " ++ id ++ " does not exist")
  | .ok (some recordJSON) => unmarshalCropRecord recordJSON

def GetAllCropRecords (stub : Stub) : Except String (List CropRecord) :=
  match stub.GetStateByRange "" "" with
  | .error err => .error err
  | .ok results => iterLoop (fun queryResponse => unmarshalCropRecord queryResponse.2) results []

def GetCropRecordHistory (stub : Stub) (id : String) :
    Except String (List CropHistoryQueryResult) :=
  match stub.GetHistoryForKey id with
  | .error err => .error err
  | .ok responses =>
    iterLoop
      (projectCommit unmarshalCropRecord
        { id := id, cropType := "", yield := .finite Finite64.zero, timestamp := "" })
      responses []

def DeleteCropRecord (stub : Stub) (id : String) : Outcome Unit :=
  match CropRecordExists stub id with
  | .error err => ⟨[], .error err⟩
  | .ok found =>
    if !found then ⟨[], .error ("the crop record " ++ id ++ " does not exist")⟩
    else stub.DelState [] id

/-- A call of one of the state-changing monitoring handlers. -/
inductive Call where
  | initLedger
  | addCropRecord (id cropType : String) (yield : Float64)
  | updateCropRecord (id cropType : String) (yield : Float64)
  | deleteCropRecord (id : String)

/-- Dispatch of a call to its handler. -/
def run (stub : Stub) (now : Clock) : Call → Outcome Unit
  | .initLedger => InitLedger stub now
  | .addCropRecord id cropType yield => AddCropRecord stub now id cropType yield
  | .updateCropRecord id cropType yield => UpdateCropRecord stub now id cropType yield
  | .deleteCropRecord id => DeleteCropRecord stub id

/-- World states reachable from the empty ledger by successful handler calls. -/
def Reachable (s : WorldState) : Prop := Steps run (fun _ => True) [] s

/-- Scenario 5 of the specification, first half: `AddCropRecord("C", "Rice", 42.0)`
committed as transaction tx1. -/
def afterAdd : Ledger :=
  Ledger.empty.commit "tx1" (1700000000, 0)
    (AddCropRecord Ledger.empty.stub (fun _ => "t1") "C" "Rice" (Float64.lit 42.0))

/-- Scenario 5 of the specification: then `UpdateCropRecord("C", "Rice", 50.0)` as tx2. -/
def afterUpdate : Ledger :=
  afterAdd.commit "tx2" (1700000060, 0)
    (UpdateCropRecord afterAdd.stub (fun _ => "t2") "C" "Rice" (Float64.lit 50.0))

end Monitoring

/-! ## supply-chain module -/

namespace SupplyChain

structure Crop where
  cropID : String
  name : String
  farmer : String
  currentOwner : String
  fieldLocation : String
  timestamp : String
  deriving DecidableEq

abbrev HistoryQueryResult := HistoryEntry Crop

/-- Go `json.Marshal` of a `Crop`. -/
def marshalCrop (c : Crop) : Payload :=
  .object [("cropID", .str c.cropID), ("name", .str c.name), ("farmer", .str c.farmer),
    ("currentOwner", .str c.currentOwner), ("fieldLocation", .str c.fieldLocation),
    ("timestamp", .str c.timestamp)]

/-- Assign one JSON member to the `Crop` field with the given index. -/
def setCropField (i : Nat) (v : JVal) (c : Crop) : Except String Crop :=
  match i with
  | 0 => (setString "Crop.cropID" v c.cropID).map fun s => { c with cropID := s }
  | 1 => (setString "Crop.name" v c.name).map fun s => { c with name := s }
  | 2 => (setString "Crop.farmer" v c.farmer).map fun s => { c with farmer := s }
  | 3 => (setString "Crop.currentOwner" v c.currentOwner).map fun s =>
      { c with currentOwner := s }
  | 4 => (setString "Crop.fieldLocation" v c.fieldLocation).map fun s =>
      { c with fieldLocation := s }
  | _ => (setString "Crop.timestamp" v c.timestamp).map fun s => { c with timestamp := s }

/-- Go `json.Unmarshal(payload, &crop)` with `crop` a zero `Crop`. -/
def unmarshalCrop (p : Payload) : Except String Crop :=
  unmarshalStruct "chaincode.Crop" ⟨"", "", "", "", "", ""⟩
    (decodeFields ["cropID", "name", "farmer", "currentOwner", "fieldLocation", "timestamp"]
      setCropField) p

/-- The `for _, crop := range crops` loop of `InitLedger`. -/
def initLoop (stub : Stub) : List Crop → List Write → Outcome Unit
  | [], staged => ⟨staged, .ok ()⟩
  | crop :: rest, staged =>
    match stub.putErr crop.cropID with
    | some err =>
      ⟨staged, .error ("failed to put crop " ++ crop.cropID ++ " to world state: " ++ err)⟩
    | none => initLoop stub rest (staged ++ [.put crop.cropID (marshalCrop crop)])

def InitLedger (stub : Stub) (now : Clock) : Outcome Unit :=
  initLoop stub
    [⟨"C001", "Wheat", "Farmer1", "Owner1", "Field1", now 0⟩,
     ⟨"C002", "Corn", "Farmer2", "Owner2", "Field2", now 1⟩] []

def CropExists (stub : Stub) (cropID : String) : Except String Bool :=
  match stub.GetState cropID with
  | .error err => .error ("failed to read from world state: " ++ err)
  | .ok cropJSON => .ok cropJSON.isSome

def RegisterCrop (stub : Stub) (now : Clock)
    (cropID name farmer currentOwner fieldLocation : String) : Outcome Unit :=
  match CropExists stub cropID with
  | .error err => ⟨[], .error err⟩
  | .ok found =>
    if found then ⟨[], .error ("the crop " ++ cropID ++ " already exists")⟩
    else stub.PutState [] cropID
      (marshalCrop { cropID := cropID, name := name, farmer := farmer,
                     currentOwner := currentOwner, fieldLocation := fieldLocation,
                     timestamp := now 0 })

def ReadCrop (stub : Stub) (cropID : String) : Except String Crop :=
  match stub.GetState cropID with
  | .error err => .error ("failed to read from world state: " ++ err)
  | .ok none => .error ("the crop " ++ cropID ++ " does not exist")
  | .ok (some cropJSON) => unmarshalCrop cropJSON

def TransferCrop (stub : Stub) (now : Clock) (cropID newOwner : String) : Outcome Unit :=
  match ReadCrop stub cropID with
  | .error err => ⟨[], .error err⟩
  | .ok crop =>
    stub.PutState [] cropID
      (marshalCrop { crop with currentOwner := newOwner, timestamp := now 0 })

def GetAllCrops (stub : Stub) : Except String (List Crop) :=
  match stub.GetStateByRange "" "" with
  | .error err => .error err
  | .ok results => iterLoop (fun queryResponse => unmarshalCrop queryResponse.2) results []

def GetCropHistory (stub : Stub) (cropID : String) : Except String (List HistoryQueryResult) :=
  match stub.GetHistoryForKey cropID with
  | .error err => .error err
  | .ok responses =>
    iterLoop
      (projectCommit unmarshalCrop
        { cropID := cropID, name := "", farmer := "", currentOwner := "", fieldLocation := "",
          timestamp := "" })
      responses []

/-- A call of one of the state-changing supply-chain handlers. -/
inductive Call where
  | initLedger
  | registerCrop (cropID name farmer currentOwner fieldLocation : String)
  | transferCrop (cropID newOwner : String)

/-- Dispatch of a call to its handler. -/
def run (stub : Stub) (now : Clock) : Call → Outcome Unit
  | .initLedger => InitLedger stub now
  | .registerCrop cropID name farmer currentOwner fieldLocation =>
    RegisterCrop stub now cropID name farmer currentOwner fieldLocation
  | .transferCrop cropID newOwner => TransferCrop stub now cropID newOwner

/-- World states reachable from the empty ledger by successful handler calls. -/
def Reachable (s : WorldState) : Prop := Steps run (fun _ => True) [] s

/-- Scenario 6 of the specification, first half:
`RegisterCrop("C1", "Rice", "F1", "O1", "L1")` on the empty ledger. -/
def afterRegister : WorldState :=
  commit [] (RegisterCrop (Stub.healthy [] fun _ => []) (fun _ => "t1") "C1" "Rice" "F1" "O1" "L1")

/-- Scenario 6 of the specification: then `TransferCrop("C1", "O2")`. -/
def afterTransfer : WorldState :=
  commit afterRegister
    (TransferCrop (Stub.healthy afterRegister fun _ => []) (fun _ => "t2") "C1" "O2")

/-- Scenario 6 continued: `TransferCrop("C1", "O2")` once more. -/
def afterSecondTransfer : WorldState :=
  commit afterTransfer
    (TransferCrop (Stub.healthy afterTransfer fun _ => []) (fun _ => "t3") "C1" "O2")

/-- A crop registered under the seed id C001 with farmer Alice, on the empty ledger. -/
def afterRegisterSeedId : WorldState :=
  commit []
    (RegisterCrop (Stub.healthy [] fun _ => []) (fun _ => "t1") "C001" "Rice" "Alice" "O1" "L1")

/-- The state after `InitLedger` ran over `afterRegisterSeedId`. -/
def afterLateInit : WorldState :=
  commit afterRegisterSeedId
    (InitLedger (Stub.healthy afterRegisterSeedId fun _ => []) fun _ => "t2")

end SupplyChain


/-! # Properties -/

/-! ## World-state laws -/

theorem WorldState.get_put (s : WorldState) (k : String) (v : Payload) (key : String) :
    (s.put k v).get key = if key = k then some v else s.get key := by
  induction s with
  | nil => simp [WorldState.put, WorldState.get]
  | cons hd tl ih =>
    obtain ⟨k', w⟩ := hd
    simp only [WorldState.put]
    by_cases h1 : k = k'
    · subst h1
      by_cases h2 : key = k <;> simp [WorldState.get, h2]
    · by_cases h3 : keyLt k k'
      · by_cases h2 : key = k <;> simp [WorldState.get, h1, h2, h3]
      · simp only [h1, h3, if_false, WorldState.get, ih]
        by_cases h2 : key = k
        · subst h2; simp [h1]
        · simp [h2]

theorem WorldState.get_del (s : WorldState) (k : String) (key : String) :
    (s.del k).get key = if key = k then none else s.get key := by
  induction s with
  | nil => simp [WorldState.del, WorldState.get]
  | cons hd tl ih =>
    obtain ⟨k', w⟩ := hd
    simp only [WorldState.del]
    by_cases h1 : k = k'
    · subst h1
      by_cases h2 : key = k
      · subst h2; simpa using ih
      · simp [WorldState.get, h2, ih]
    · by_cases h2 : key = k
      · subst h2; simp [WorldState.get, h1, ih]
      · simp [WorldState.get, h1, h2, ih]

/-! ## Stub laws -/

@[simp] theorem Stub.healthy_state (s : WorldState) (h : String → List KeyModification) :
    (Stub.healthy s h).state = s := rfl

@[simp] theorem Stub.healthy_getErr (s : WorldState) (h : String → List KeyModification)
    (k : String) : (Stub.healthy s h).getErr k = none := rfl

theorem Stub.healthy_putErr (s : WorldState) (h : String → List KeyModification)
    (k : String) (hk : k ≠ "") : (Stub.healthy s h).putErr k = none := by
  simp [Stub.healthy, hk]

@[simp] theorem Stub.healthy_delErr (s : WorldState) (h : String → List KeyModification)
    (k : String) : (Stub.healthy s h).delErr k = none := rfl

@[simp] theorem Stub.healthy_rangeErr (s : WorldState) (h : String → List KeyModification) :
    (Stub.healthy s h).rangeErr = none := rfl

@[simp] theorem Stub.healthy_historyErr (s : WorldState) (h : String → List KeyModification)
    (k : String) : (Stub.healthy s h).historyErr k = none := rfl

@[simp] theorem Stub.healthy_history (s : WorldState) (h : String → List KeyModification) :
    (Stub.healthy s h).history = h := rfl

/-! ## float64 laws -/

theorem Finite64.toRat_nonneg (x : Finite64) (h : x.sign = false) : 0 ≤ x.toRat := by
  unfold Finite64.toRat
  simp only [h]
  exact div_nonneg (Nat.cast_nonneg _) (Nat.cast_nonneg _)

theorem Finite64.toRat_zero_bits (sign : Bool) :
    ({ sign := sign, expo := 0, frac := 0 } : Finite64).toRat = 0 := by
  cases sign <;>
    simp only [Finite64.toRat, Fin.val_zero, if_true, Nat.cast_zero, zero_div, neg_zero,
      Bool.false_eq_true, if_false]

theorem Float64.lit_zero : Float64.lit 0.0 = .finite Finite64.zero := by
  decide!

/-- The sign bit of a rounded non-zero value is the sign of the value. -/
theorem Float64.round_sign (q : ℚ) (x : Finite64) (hq : q ≠ 0)
    (h : Float64.round q = .finite x) : x.sign = decide (q < 0) := by
  unfold Float64.round at h
  simp only [hq, if_false] at h
  split_ifs at h <;> (cases h; rfl)

theorem Float64.round_nonneg (q : ℚ) (x : Finite64) (hq : 0 ≤ q)
    (h : Float64.round q = .finite x) : 0 ≤ x.toRat := by
  by_cases h0 : q = 0
  · subst h0
    have hz : Float64.round 0 = .finite Finite64.zero := by simp [Float64.round]
    rw [hz] at h
    cases h
    exact Finite64.toRat_nonneg _ rfl
  · apply Finite64.toRat_nonneg
    rw [Float64.round_sign q x h0 h]
    simpa using hq

theorem Float64.neg_finite_toRat (b : Finite64) :
    ({ b with sign := !b.sign } : Finite64).toRat = -b.toRat := by
  cases hb : b.sign <;>
    simp only [Finite64.toRat, hb, Bool.not_true, Bool.not_false, Bool.false_eq_true, if_true,
      if_false, neg_neg]

/-- A finite sum of two `float64` values that are not negative is not negative. -/
theorem Float64.add_nonneg (a b : Float64) (x : Finite64)
    (ha : ∀ y, a = .finite y → 0 ≤ y.toRat) (hb : b.nonneg = true)
    (h : a.add b = .finite x) : 0 ≤ x.toRat := by
  cases a with
  | finite y =>
    cases b with
    | finite z =>
      have hy := ha y rfl
      have hz : 0 ≤ z.toRat := by simpa [Float64.nonneg] using hb
      simp only [Float64.add] at h
      by_cases hs : y.toRat + z.toRat = 0
      · simp only [hs, if_true] at h
        cases h
        rw [Finite64.toRat_zero_bits]
      · simp only [hs, if_false] at h
        exact Float64.round_nonneg _ x (by linarith) h
    | posInf => simp [Float64.add] at h
    | negInf => simp [Float64.add] at h
    | nan => simp [Float64.add] at h
  | posInf => cases b <;> simp [Float64.add] at h
  | negInf => cases b <;> simp [Float64.add] at h
  | nan => cases b <;> simp [Float64.add] at h

/-- A finite difference of two `float64` values of which the first is not below the
second is not negative. -/
theorem Float64.sub_nonneg (a b : Float64) (x : Finite64)
    (hlt : a.lt b = false) (h : a.sub b = .finite x) : 0 ≤ x.toRat := by
  cases a with
  | finite y =>
    cases b with
    | finite z =>
      simp only [Float64.lt, decide_eq_false_iff_not, not_lt] at hlt
      simp only [Float64.sub, Float64.neg, Float64.add, Float64.neg_finite_toRat] at h
      by_cases hs : y.toRat + -z.toRat = 0
      · simp only [hs, if_true] at h
        cases h
        rw [Finite64.toRat_zero_bits]
      · simp only [hs, if_false] at h
        exact Float64.round_nonneg _ x (by linarith) h
    | posInf => simp [Float64.sub, Float64.neg, Float64.add] at h
    | negInf => simp [Float64.sub, Float64.neg, Float64.add] at h
    | nan => simp [Float64.sub, Float64.neg, Float64.add] at h
  | posInf => cases b <;> simp [Float64.sub, Float64.neg, Float64.add] at h
  | negInf => cases b <;> simp [Float64.sub, Float64.neg, Float64.add] at h
  | nan => cases b <;> simp [Float64.sub, Float64.neg, Float64.add] at h

/-! ## Codec laws -/

theorem Defi.marshalCropBalance_finite (farmer : String) (x : Finite64) (timestamp : String) :
    Defi.marshalCropBalance ⟨farmer, .finite x, timestamp⟩
      = .ok (Defi.cropBalanceJSON farmer x timestamp) := rfl

theorem Defi.marshalCropBalance_ok (c : Defi.CropBalance) (p : Payload)
    (h : Defi.marshalCropBalance c = .ok p) :
    ∃ x, c.cropAmount = .finite x ∧ p = Defi.cropBalanceJSON c.farmer x c.timestamp := by
  unfold Defi.marshalCropBalance at h
  cases hc : c.cropAmount with
  | finite x =>
    simp only [hc, marshalFloat64, Except.ok.injEq] at h
    exact ⟨x, rfl, h.symm⟩
  | posInf => simp [hc, marshalFloat64] at h
  | negInf => simp [hc, marshalFloat64] at h
  | nan => simp [hc, marshalFloat64] at h

theorem Defi.marshalPlantingInfo_finite (farmer : String) (x y : Finite64) (timestamp : String) :
    Defi.marshalPlantingInfo ⟨farmer, .finite x, .finite y, timestamp⟩
      = .ok (Defi.plantingInfoJSON farmer x y timestamp) := rfl

theorem Defi.marshalPlantingInfo_ok (r : Defi.PlantingInfo) (p : Payload)
    (h : Defi.marshalPlantingInfo r = .ok p) :
    ∃ x y, r.plantedAmount = .finite x ∧ r.yield = .finite y ∧
      p = Defi.plantingInfoJSON r.farmer x y r.timestamp := by
  unfold Defi.marshalPlantingInfo at h
  cases hx : r.plantedAmount with
  | finite x =>
    cases hy : r.yield with
    | finite y =>
      simp only [hx, hy, marshalFloat64, Except.ok.injEq] at h
      exact ⟨x, y, rfl, rfl, h.symm⟩
    | posInf => simp [hx, hy, marshalFloat64] at h
    | negInf => simp [hx, hy, marshalFloat64] at h
    | nan => simp [hx, hy, marshalFloat64] at h
  | posInf => simp [hx, marshalFloat64] at h
  | negInf => simp [hx, marshalFloat64] at h
  | nan => simp [hx, marshalFloat64] at h

theorem Defi.unmarshal_cropBalanceJSON (farmer : String) (x : Finite64) (timestamp : String) :
    Defi.unmarshalCropBalance (Defi.cropBalanceJSON farmer x timestamp)
      = .ok ⟨farmer, .finite x, timestamp⟩ := by
  simp [Defi.unmarshalCropBalance, Defi.cropBalanceJSON, unmarshalStruct, decodeFields,
    fieldIndex, Defi.setCropBalanceField, setString, setFloat, Except.map]

theorem Defi.unmarshalCropBalance_plantingInfoJSON (farmer : String) (x y : Finite64)
    (timestamp : String) :
    Defi.unmarshalCropBalance (Defi.plantingInfoJSON farmer x y timestamp)
      = .ok ⟨farmer, .finite Finite64.zero, timestamp⟩ := by
  simp [Defi.unmarshalCropBalance, Defi.plantingInfoJSON, unmarshalStruct, decodeFields,
    fieldIndex, Defi.setCropBalanceField, setString, setFloat, Except.map, foldName]

theorem Defi.unmarshal_plantingInfoJSON (farmer : String) (x y : Finite64)
    (timestamp : String) :
    Defi.unmarshalPlantingInfo (Defi.plantingInfoJSON farmer x y timestamp)
      = .ok ⟨farmer, .finite x, .finite y, timestamp⟩ := by
  simp [Defi.unmarshalPlantingInfo, Defi.plantingInfoJSON, unmarshalStruct, decodeFields,
    fieldIndex, Defi.setPlantingInfoField, setString, setFloat, Except.map]

theorem DataStorage.storage_unmarshal_marshal (c : DataStorage.CropRecord) :
    DataStorage.unmarshalCropRecord (DataStorage.marshalCropRecord c) = .ok c := by
  simp [DataStorage.unmarshalCropRecord, DataStorage.marshalCropRecord, unmarshalStruct,
    decodeFields, fieldIndex, DataStorage.setCropRecordField, setString, Except.map]

theorem Monitoring.marshalCropRecord_finite (id cropType : String) (x : Finite64)
    (timestamp : String) :
    Monitoring.marshalCropRecord ⟨id, cropType, .finite x, timestamp⟩
      = .ok (Monitoring.cropRecordJSON id cropType x timestamp) := rfl

theorem Monitoring.marshalCropRecord_ok (c : Monitoring.CropRecord) (p : Payload)
    (h : Monitoring.marshalCropRecord c = .ok p) :
    ∃ x, c.yield = .finite x ∧ p = Monitoring.cropRecordJSON c.id c.cropType x c.timestamp := by
  unfold Monitoring.marshalCropRecord at h
  cases hc : c.yield with
  | finite x =>
    simp only [hc, marshalFloat64, Except.ok.injEq] at h
    exact ⟨x, rfl, h.symm⟩
  | posInf => simp [hc, marshalFloat64] at h
  | negInf => simp [hc, marshalFloat64] at h
  | nan => simp [hc, marshalFloat64] at h

theorem Monitoring.monitoring_unmarshal_marshal (id cropType : String) (x : Finite64)
    (timestamp : String) :
    Monitoring.unmarshalCropRecord (Monitoring.cropRecordJSON id cropType x timestamp)
      = .ok ⟨id, cropType, .finite x, timestamp⟩ := by
  simp [Monitoring.unmarshalCropRecord, Monitoring.cropRecordJSON, unmarshalStruct,
    decodeFields, fieldIndex, Monitoring.setCropRecordField, setString, setFloat, Except.map]

theorem SupplyChain.unmarshal_marshalCrop (c : SupplyChain.Crop) :
    SupplyChain.unmarshalCrop (SupplyChain.marshalCrop c) = .ok c := by
  simp [SupplyChain.unmarshalCrop, SupplyChain.marshalCrop, unmarshalStruct,
    decodeFields, fieldIndex, SupplyChain.setCropField, setString, Except.map]

/-- A property of the struct value that every field assignment keeps holds of
what the member loop returns. -/
theorem decodeFields_preserves {α : Type} (P : α → Prop) (names : List String)
    (set : Nat → JVal → α → Except String α)
    (hset : ∀ i v r r', P r → set i v r = .ok r' → P r') :
    ∀ (fs : List (String × JVal)) (r r' : α), P r → decodeFields names set fs r = .ok r' →
      P r' := by
  intro fs
  induction fs with
  | nil =>
    intro r r' hr h
    simp only [decodeFields, Except.ok.injEq] at h
    exact h ▸ hr
  | cons kv rest ih =>
    intro r r' hr h
    obtain ⟨k, v⟩ := kv
    simp only [decodeFields] at h
    cases hi : fieldIndex names k with
    | none =>
      simp only [hi] at h
      exact ih r r' hr h
    | some i =>
      simp only [hi] at h
      cases hs : set i v r with
      | error e => simp [hs] at h
      | ok r₁ =>
        simp only [hs] at h
        exact ih r₁ r' (hset i v r r₁ hr hs) h

theorem setFloat_finite (field : String) (v : JVal) (old new : Float64)
    (hold : ∃ x, old = .finite x) (h : setFloat field v old = .ok new) :
    ∃ x, new = .finite x := by
  cases v <;> simp [setFloat] at h
  · exact h ▸ hold
  · exact ⟨_, h.symm⟩

/-- A decoded `CropBalance` has a finite amount. -/
theorem Defi.unmarshalCropBalance_finite (p : Payload) (c : Defi.CropBalance)
    (h : Defi.unmarshalCropBalance p = .ok c) : ∃ x, c.cropAmount = .finite x := by
  unfold Defi.unmarshalCropBalance unmarshalStruct at h
  cases p with
  | malformed raw err => simp at h
  | value v =>
    cases v <;> simp at h
    exact h ▸ ⟨_, rfl⟩
  | object fs =>
    simp only [] at h
    refine decodeFields_preserves (fun c : Defi.CropBalance => ∃ x, c.cropAmount = .finite x)
      _ _ ?_ fs _ c ⟨_, rfl⟩ h
    intro i v r r' hr hs
    unfold Defi.setCropBalanceField at hs
    split at hs
    · cases hf : setString "CropBalance.farmer" v r.farmer with
      | error e => simp [hf, Except.map] at hs
      | ok s =>
        simp only [hf, Except.map, Except.ok.injEq] at hs
        exact hs ▸ hr
    · cases hf : setFloat "CropBalance.cropAmount" v r.cropAmount with
      | error e => simp [hf, Except.map] at hs
      | ok q =>
        simp only [hf, Except.map, Except.ok.injEq] at hs
        exact hs ▸ setFloat_finite _ v _ q hr hf
    · cases hf : setString "CropBalance.timestamp" v r.timestamp with
      | error e => simp [hf, Except.map] at hs
      | ok s =>
        simp only [hf, Except.map, Except.ok.injEq] at hs
        exact hs ▸ hr

/-! ## Iterator loops -/

theorem iterLoop_ok_iff {ι ρ : Type} (body : ι → Except String ρ) (xs : List ι) :
    ∀ (acc rs : List ρ), iterLoop body xs acc = .ok rs ↔
      ∃ ys, rs = acc ++ ys ∧ List.Forall₂ (fun x y => body x = .ok y) xs ys := by
  induction xs with
  | nil =>
    intro acc rs
    simp only [iterLoop]
    constructor
    · intro h; cases h; exact ⟨[], by simp, List.Forall₂.nil⟩
    · rintro ⟨ys, rfl, h⟩; cases h; simp
  | cons x rest ih =>
    intro acc rs
    simp only [iterLoop]
    cases hb : body x with
    | error e =>
      constructor
      · intro h; cases h
      · rintro ⟨ys, -, h⟩
        cases h with
        | cons h1 _ => rw [hb] at h1; cases h1
    | ok y =>
      simp only []
      rw [ih]
      constructor
      · rintro ⟨ys, rfl, h⟩
        exact ⟨y :: ys, by simp, List.Forall₂.cons hb h⟩
      · rintro ⟨ys, rfl, h⟩
        cases h with
        | cons h1 h2 =>
          rw [hb] at h1
          cases h1
          exact ⟨_, by simp, h2⟩

theorem iterLoop_mem {ι ρ : Type} (body : ι → Except String ρ) (xs : List ι) (rs : List ρ)
    (h : iterLoop body xs [] = .ok rs) : ∀ r ∈ rs, ∃ x ∈ xs, body x = .ok r := by
  obtain ⟨ys, hrs, hf⟩ := (iterLoop_ok_iff body xs [] rs).mp h
  rw [List.nil_append] at hrs
  subst hrs
  clear h
  induction hf with
  | nil => intro r hr; simp at hr
  | cons h1 _ ih =>
    intro r hr
    rcases List.mem_cons.mp hr with rfl | hr'
    · exact ⟨_, List.mem_cons_self _ _, h1⟩
    · obtain ⟨x, hx, hbx⟩ := ih r hr'
      exact ⟨x, List.mem_cons_of_mem _ hx, hbx⟩

theorem Stub.GetStateByRange_mem (stub : Stub) (startKey endKey : String)
    (results : List (String × Payload)) (h : stub.GetStateByRange startKey endKey = .ok results) :
    ∀ x ∈ results, x ∈ stub.state := by
  unfold Stub.GetStateByRange at h
  simp only [] at h
  by_cases hc : (if startKey = "" then String.singleton (Char.ofNat 1) else startKey).toList.head?
      = some (Char.ofNat 0) ∨ endKey.toList.head? = some (Char.ofNat 0)
  · rw [if_pos hc] at h; cases h
  · rw [if_neg hc] at h
    cases hr : stub.rangeErr with
    | some e => rw [hr] at h; cases h
    | none =>
      rw [hr] at h
      simp only [Except.ok.injEq] at h
      subst h
      intro x hx
      exact (List.mem_filter.mp hx).1

/-! ## defi: transfers -/

theorem Defi.getCropBalance_healthy (s : WorldState) (h : String → List KeyModification)
    (farmer : String) :
    Defi.GetCropBalance (Stub.healthy s h) farmer =
      match s.get farmer with
      | none => .error ("the crop balance for " ++ farmer ++ " doesn't exist")
      | some cropJSON => Defi.unmarshalCropBalance cropJSON := by
  simp only [Defi.GetCropBalance, Stub.GetState, Stub.healthy_getErr, Stub.healthy_state]
  cases s.get farmer <;> rfl

theorem Defi.getCropBalance_finite (stub : Stub) (farmer : String) (c : Defi.CropBalance)
    (h : Defi.GetCropBalance stub farmer = .ok c) : ∃ x, c.cropAmount = .finite x := by
  unfold Defi.GetCropBalance at h
  cases hg : stub.GetState farmer with
  | error e => simp [hg] at h
  | ok v =>
    cases v with
    | none => simp [hg] at h
    | some p =>
      simp only [hg] at h
      exact Defi.unmarshalCropBalance_finite p c h

theorem Defi.balance_of_stored (s : WorldState) (farmer f : String) (x : Finite64)
    (ts : String) (h : s.get farmer = some (Defi.cropBalanceJSON f x ts)) :
    Defi.balance s farmer = some x := by
  simp [Defi.balance, Defi.getCropBalance_healthy, h, Defi.unmarshal_cropBalanceJSON]

/-- The amount the receiving side of a handler starts from: the stored balance, or the
zero of a fresh record when the read failed. -/
theorem Defi.orNewBalance_amount (s : WorldState) (hist : String → List KeyModification)
    (now : Clock) (farmer : String) :
    (Defi.orNewBalance (Stub.healthy s hist) now farmer).1.cropAmount
      = .finite ((Defi.balance s farmer).getD Finite64.zero) := by
  have hread : Defi.GetCropBalance (Stub.healthy s hist) farmer
      = Defi.GetCropBalance (Stub.healthy s fun _ => []) farmer := by
    simp [Defi.getCropBalance_healthy]
  unfold Defi.orNewBalance Defi.balance
  rw [hread]
  cases hg : Defi.GetCropBalance (Stub.healthy s fun _ => []) farmer with
  | error e => simp [Float64.lit_zero]
  | ok c =>
    obtain ⟨x, hx⟩ := Defi.getCropBalance_finite _ _ c hg
    simp [hx]

/-- C1, as far as it holds. `DistributeCrops(from, to, amount)` between distinct farmers
with non-empty keys, with the sender's balance present and at least `amount`, and with
both new amounts finite in `float64`, succeeds; afterwards the sender's balance is the
rounded difference of the old one and `amount`, the receiver's is the rounded sum of its
old one (0 when it had none) and `amount`, and every other key holds what it held. -/
theorem Defi.distributeCrops_post (s : WorldState) (hist : String → List KeyModification)
    (now : Clock) (from_ to_ : String) (amount b x y : Finite64)
    (hne : from_ ≠ to_) (hfromKey : from_ ≠ "") (htoKey : to_ ≠ "")
    (hb : Defi.balance s from_ = some b) (hamt : amount.toRat ≤ b.toRat)
    (hx : (Float64.finite b).sub (.finite amount) = .finite x)
    (hy : (Float64.finite ((Defi.balance s to_).getD Finite64.zero)).add (.finite amount)
      = .finite y) :
    (Defi.DistributeCrops (Stub.healthy s hist) now from_ to_ (.finite amount)).result = .ok () ∧
    Defi.balance (commit s (Defi.DistributeCrops (Stub.healthy s hist) now from_ to_ (.finite amount)))
      from_ = some x ∧
    Defi.balance (commit s (Defi.DistributeCrops (Stub.healthy s hist) now from_ to_ (.finite amount)))
      to_ = some y ∧
    ∀ key, key ≠ from_ → key ≠ to_ →
      (commit s (Defi.DistributeCrops (Stub.healthy s hist) now from_ to_ (.finite amount))).get key
        = s.get key := by
  have hread : ∀ f, Defi.GetCropBalance (Stub.healthy s hist) f
      = Defi.GetCropBalance (Stub.healthy s fun _ => []) f := by
    intro f; simp [Defi.getCropBalance_healthy]
  obtain ⟨fromCrops, hfrom, hfb⟩ : ∃ c, Defi.GetCropBalance (Stub.healthy s hist) from_ = .ok c
      ∧ c.cropAmount = .finite b := by
    rw [hread]
    unfold Defi.balance at hb
    cases hg : Defi.GetCropBalance (Stub.healthy s fun _ => []) from_ with
    | error e => simp [hg] at hb
    | ok c =>
      refine ⟨c, rfl, ?_⟩
      simp only [hg] at hb
      cases hc : c.cropAmount <;> simp_all
  have hlt : (Float64.finite b).lt (.finite amount) = false := by
    simp only [Float64.lt, decide_eq_false_iff_not, not_lt]
    exact hamt
  have hold := Defi.orNewBalance_amount s hist now to_
  have hval : Defi.DistributeCrops (Stub.healthy s hist) now from_ to_ (.finite amount) =
      ⟨[.put from_ (Defi.cropBalanceJSON fromCrops.farmer x
          (now (Defi.orNewBalance (Stub.healthy s hist) now to_).2)),
        .put to_ (Defi.cropBalanceJSON (Defi.orNewBalance (Stub.healthy s hist) now to_).1.farmer
          y (now ((Defi.orNewBalance (Stub.healthy s hist) now to_).2 + 1)))],
       .ok ()⟩ := by
    simp [Defi.DistributeCrops, hfrom, hfb, hlt, hold, hx, hy, Stub.PutState, Outcome.andThen,
      Defi.marshalCropBalance, marshalFloat64, Stub.healthy_putErr, hfromKey, htoKey,
      Defi.cropBalanceJSON]
  rw [hval]
  refine ⟨rfl, ?_, ?_, ?_⟩
  · refine Defi.balance_of_stored _ _ fromCrops.farmer x
      (now (Defi.orNewBalance (Stub.healthy s hist) now to_).2) ?_
    simp [commit, applyWrites, WorldState.get_put, hne]
  · refine Defi.balance_of_stored _ _ (Defi.orNewBalance (Stub.healthy s hist) now to_).1.farmer
      y (now ((Defi.orNewBalance (Stub.healthy s hist) now to_).2 + 1)) ?_
    simp [commit, applyWrites, WorldState.get_put]
  · intro key h1 h2
    simp [commit, applyWrites, WorldState.get_put, h1, h2]

/-- C1, scenario 3 of the specification: after `InitLedger`, the transfer of 400 from
Farmer1 to Farmer2 leaves 600 and 900. -/
theorem Defi.distributeCrops_post_witness :
    Defi.balance Defi.seeded "Farmer1" = some (Finite64.lit 1000) ∧
    Defi.balance Defi.afterTransfer "Farmer1" = some (Finite64.lit 600) ∧
    Defi.balance Defi.afterTransfer "Farmer2" = some (Finite64.lit 900) := by
  have h0 : Defi.balance Defi.seeded "Farmer1" = some (Finite64.lit 1000) := by decide!
  have h := Defi.distributeCrops_post Defi.seeded (fun _ => [])
    (fun _ => "t1") "Farmer1" "Farmer2" (Finite64.lit 400) (Finite64.lit 1000)
    (Finite64.lit 600) (Finite64.lit 900) (by decide) (by decide) (by decide) h0
    (by decide!) (by decide!) (by decide!)
  exact ⟨h0, h.2.1, h.2.2.1⟩

/-- C1 fails as stated. With A and B each holding 1e308 (both reached by one
`HarvestCrops`), the transfer of 1e308 from A to B meets every condition of the claim
(distinct keys, the sender's balance present and not below the amount), yet the
receiver's new amount overflows `float64` to +Inf, `json.Marshal` refuses it, and the
handler fails with nothing written. And after `InitLedger`, the transfer of 400 from
Farmer1 to the empty key fails in `PutState`. -/
theorem Defi.distributeCrops_fails_on_overflow_and_empty_key :
    "A" ≠ "B" ∧
    Defi.balance Defi.nearOverflow "A" = some (Finite64.lit 1e308) ∧
    (Finite64.lit 1e308).toRat ≤ (Finite64.lit 1e308).toRat ∧
    (Defi.DistributeCrops (Stub.healthy Defi.nearOverflow fun _ => []) (fun _ => "t2")
        "A" "B" (Float64.lit 1e308)).result
      = .error "json: unsupported value: +Inf" ∧
    (Defi.DistributeCrops (Stub.healthy Defi.nearOverflow fun _ => []) (fun _ => "t2")
        "A" "B" (Float64.lit 1e308)).writes = [] ∧
    "Farmer1" ≠ "" ∧
    Defi.balance Defi.seeded "Farmer1" = some (Finite64.lit 1000) ∧
    (Finite64.lit 400).toRat ≤ (Finite64.lit 1000).toRat ∧
    (Defi.DistributeCrops (Stub.healthy Defi.seeded fun _ => []) (fun _ => "t1")
        "Farmer1" "" (Float64.lit 400)).result
      = .error "key must not be an empty string" := by
  refine ⟨by decide, by decide!, le_refl _, by decide!, by decide!, by decide, by decide!,
    by decide!, by decide!⟩

/-! ## Committing writes -/

theorem WorldState.mem_of_get (s : WorldState) (k : String) (v : Payload)
    (h : s.get k = some v) : (k, v) ∈ s := by
  induction s with
  | nil => simp [WorldState.get] at h
  | cons hd tl ih =>
    obtain ⟨k', w⟩ := hd
    simp only [WorldState.get] at h
    by_cases hk : k = k'
    · subst hk
      simp at h
      subst h
      exact List.mem_cons_self _ _
    · simp only [hk, if_false] at h
      exact List.mem_cons_of_mem _ (ih h)

theorem WorldState.mem_put (s : WorldState) (k : String) (v : Payload) (x : String × Payload)
    (h : x ∈ s.put k v) : x = (k, v) ∨ x ∈ s := by
  induction s with
  | nil => left; simpa [WorldState.put] using h
  | cons hd tl ih =>
    obtain ⟨k', w⟩ := hd
    simp only [WorldState.put] at h
    by_cases h1 : k = k'
    · simp only [h1, if_true, List.mem_cons] at h
      rcases h with h | h
      · left; rw [h, h1]
      · right; exact List.mem_cons_of_mem _ h
    · by_cases h3 : keyLt k k'
      · simp only [h1, h3, if_false, if_true, List.mem_cons] at h
        rcases h with h | h | h
        · left; exact h
        · right; rw [h]; exact List.mem_cons_self _ _
        · right; exact List.mem_cons_of_mem _ h
      · simp only [h1, h3, if_false, List.mem_cons] at h
        rcases h with h | h
        · right; rw [h]; exact List.mem_cons_self _ _
        · rcases ih h with h' | h'
          · left; exact h'
          · right; exact List.mem_cons_of_mem _ h'

theorem WorldState.mem_del (s : WorldState) (k : String) (x : String × Payload)
    (h : x ∈ s.del k) : x ∈ s := by
  induction s with
  | nil => simp [WorldState.del] at h
  | cons hd tl ih =>
    obtain ⟨k', w⟩ := hd
    simp only [WorldState.del] at h
    by_cases h1 : k = k'
    · simp only [h1, if_true] at h
      exact List.mem_cons_of_mem _ (ih (h1 ▸ h))
    · simp only [h1, if_false, List.mem_cons] at h
      rcases h with h | h
      · rw [h]; exact List.mem_cons_self _ _
      · exact List.mem_cons_of_mem _ (ih h)

/-- A predicate on stored entries that holds before a commit and for every
staged put holds afterwards. -/
theorem applyWrites_preserves (P : String → Payload → Prop) (writes : List Write) :
    ∀ s : WorldState, (∀ x ∈ s, P x.1 x.2) →
      (∀ k v, Write.put k v ∈ writes → P k v) →
      ∀ x ∈ applyWrites s writes, P x.1 x.2 := by
  induction writes with
  | nil => intro s hs _ x h; exact hs x h
  | cons w rest ih =>
    intro s hs hw x h
    cases w with
    | put k' v' =>
      refine ih (s.put k' v') ?_ (fun a b hab => hw a b (List.mem_cons_of_mem _ hab)) x h
      intro y hy
      rcases WorldState.mem_put s k' v' y hy with rfl | hy'
      · exact hw k' v' (List.mem_cons_self _ _)
      · exact hs y hy'
    | del k' =>
      refine ih (s.del k') ?_ (fun a b hab => hw a b (List.mem_cons_of_mem _ hab)) x h
      intro y hy
      exact hs y (WorldState.mem_del s k' y hy)

theorem commit_preserves {α : Type} (P : String → Payload → Prop) (s : WorldState)
    (o : Outcome α) (hs : ∀ x ∈ s, P x.1 x.2)
    (hw : ∀ k v, Write.put k v ∈ o.writes → P k v) :
    ∀ x ∈ commit s o, P x.1 x.2 := by
  unfold commit
  cases o.result with
  | error e => exact hs
  | ok a => exact applyWrites_preserves P o.writes s hs hw

/-- An invariant of stored entries that every handler write keeps holds in all
states the contract moves to. -/
theorem Steps.invariant {Call : Type} (run : Stub → Clock → Call → Outcome Unit)
    (allowed : Call → Prop) (P : String → Payload → Prop) (s₀ s : WorldState)
    (h₀ : ∀ x ∈ s₀, P x.1 x.2)
    (hrun : ∀ (stub : Stub) (now : Clock) (call : Call), allowed call →
      (∀ x ∈ stub.state, P x.1 x.2) → ∀ k v, Write.put k v ∈ (run stub now call).writes → P k v)
    (hs : Steps run allowed s₀ s) : ∀ x ∈ s, P x.1 x.2 := by
  induction hs with
  | start => exact h₀
  | step stub now call _ ha _ ih =>
    exact commit_preserves P _ _ ih (hrun stub now call ha ih)

theorem Stub.PutState_writes (stub : Stub) (staged : List Write) (key : String) (value : Payload)
    (k : String) (v : Payload) (h : Write.put k v ∈ (stub.PutState staged key value).writes) :
    Write.put k v ∈ staged ∨ (k = key ∧ v = value) := by
  unfold Stub.PutState at h
  cases hp : stub.putErr key with
  | some e => left; simpa [hp] using h
  | none =>
    simp [hp] at h
    rcases h with h | h
    · left; exact h
    · right; exact h

theorem Outcome.andThen_writes {β : Type} (o : Outcome Unit) (next : List Write → Outcome β)
    (w : Write) (h : w ∈ (o.andThen next).writes) : w ∈ o.writes ∨ w ∈ (next o.writes).writes := by
  unfold Outcome.andThen at h
  cases hr : o.result with
  | error e => left; simpa [hr] using h
  | ok a => right; simpa [hr] using h

/-! ## defi: what the handlers write -/

theorem Defi.getCropBalance_ok (stub : Stub) (farmer : String) (c : Defi.CropBalance)
    (h : Defi.GetCropBalance stub farmer = .ok c) :
    ∃ v, stub.state.get farmer = some v ∧ Defi.unmarshalCropBalance v = .ok c := by
  unfold Defi.GetCropBalance Stub.GetState at h
  cases hg : stub.getErr farmer with
  | some e => simp [hg] at h
  | none =>
    cases hs : stub.state.get farmer with
    | none => simp [hg, hs] at h
    | some v => exact ⟨v, rfl, by simpa [hg, hs] using h⟩

theorem Defi.defi_initLoop_writes (stub : Stub) (k : String) (v : Payload) :
    ∀ (crops : List Defi.CropBalance) (staged : List Write),
      Write.put k v ∈ (Defi.initLoop stub crops staged).writes →
      Write.put k v ∈ staged ∨
        ∃ c ∈ crops, k = c.farmer ∧ Defi.marshalCropBalance c = .ok v := by
  intro crops
  induction crops with
  | nil => intro staged h; left; simpa [Defi.initLoop] using h
  | cons c rest ih =>
    intro staged h
    unfold Defi.initLoop at h
    cases hm : Defi.marshalCropBalance c with
    | error e => left; simpa [hm] using h
    | ok cropJSON =>
      simp only [hm] at h
      cases hp : stub.putErr c.farmer with
      | some e => left; simpa [hp] using h
      | none =>
        simp only [hp] at h
        rcases ih _ h with h' | ⟨c', hc', hk, hv⟩
        · simp at h'
          rcases h' with h' | ⟨rfl, rfl⟩
          · left; exact h'
          · right; exact ⟨c, List.mem_cons_self _ _, rfl, hm⟩
        · right; exact ⟨c', List.mem_cons_of_mem _ hc', hk, hv⟩

/-- The encoding of a balance that is not negative decodes to a balance that is not
negative. -/
theorem Defi.marshalCropBalance_nonneg (c : Defi.CropBalance) (p : Payload)
    (hm : Defi.marshalCropBalance c = .ok p)
    (hc : ∀ y, c.cropAmount = .finite y → 0 ≤ y.toRat) :
    ∀ c', Defi.unmarshalCropBalance p = .ok c' →
      ∀ y, c'.cropAmount = .finite y → 0 ≤ y.toRat := by
  obtain ⟨x, hx, rfl⟩ := Defi.marshalCropBalance_ok c p hm
  intro c' h y hy
  rw [Defi.unmarshal_cropBalanceJSON] at h
  cases h
  cases hy
  exact hc x hx

/-- Every write a defi handler stages is a put of an encoded `CropBalance` or of an
encoded `PlantingInfo`; with a non-negative amount and non-negative balances read, every
balance written is non-negative. -/
theorem Defi.run_writes_nonneg (stub : Stub) (now : Clock) (call : Defi.Call)
    (hs : ∀ k v c, stub.state.get k = some v → Defi.unmarshalCropBalance v = .ok c →
      ∀ y, c.cropAmount = .finite y → 0 ≤ y.toRat)
    (ha : call.amount.nonneg = true) (k : String) (v : Payload)
    (hw : Write.put k v ∈ (Defi.run stub now call).writes) :
    ∀ c, Defi.unmarshalCropBalance v = .ok c →
      ∀ y, c.cropAmount = .finite y → 0 ≤ y.toRat := by
  have hread : ∀ f c, Defi.GetCropBalance stub f = .ok c →
      ∀ y, c.cropAmount = .finite y → 0 ≤ y.toRat := by
    intro f c h
    obtain ⟨v, hv, hc⟩ := Defi.getCropBalance_ok stub f c h
    exact hs f v c hv hc
  have hnew : ∀ f y, (Defi.orNewBalance stub now f).1.cropAmount = .finite y →
      0 ≤ y.toRat := by
    intro f y
    unfold Defi.orNewBalance
    cases hg : Defi.GetCropBalance stub f with
    | error e =>
      intro h
      exact Float64.round_nonneg _ y (by norm_num) h
    | ok c => exact hread f c hg y
  cases call with
  | initLedger =>
    rcases Defi.defi_initLoop_writes stub k v _ _ hw with h | ⟨c, hc, -, hm⟩
    · simp at h
    · refine Defi.marshalCropBalance_nonneg c v hm ?_
      simp at hc
      rcases hc with rfl | rfl
      · intro y h
        exact Float64.round_nonneg _ y (by norm_num) h
      · intro y h
        exact Float64.round_nonneg _ y (by norm_num) h
  | harvestCrops farmer amount =>
    simp only [Defi.Call.amount] at ha
    simp only [Defi.run, Defi.HarvestCrops] at hw
    cases hm : Defi.marshalCropBalance
        { (Defi.orNewBalance stub now farmer).1 with
          cropAmount := (Defi.orNewBalance stub now farmer).1.cropAmount.add amount,
          timestamp := now (Defi.orNewBalance stub now farmer).2 } with
    | error e => simp [hm] at hw
    | ok cropJSON =>
      simp only [hm] at hw
      rcases Stub.PutState_writes _ _ _ _ _ _ hw with h | ⟨-, rfl⟩
      · simp at h
      · refine Defi.marshalCropBalance_nonneg _ _ hm ?_
        intro y h
        exact Float64.add_nonneg _ amount y (hnew farmer) ha h
  | distributeCrops from_ to_ amount =>
    simp only [Defi.Call.amount] at ha
    simp only [Defi.run, Defi.DistributeCrops] at hw
    cases hg : Defi.GetCropBalance stub from_ with
    | error e => simp [hg] at hw
    | ok fromCrops =>
      simp only [hg] at hw
      cases hlt : fromCrops.cropAmount.lt amount with
      | true => simp [hlt] at hw
      | false =>
        simp only [hlt, Bool.false_eq_true, if_false] at hw
        cases hm₁ : Defi.marshalCropBalance
            { fromCrops with
              cropAmount := fromCrops.cropAmount.sub amount,
              timestamp := now (Defi.orNewBalance stub now to_).2 } with
        | error e => simp [hm₁] at hw
        | ok fromJSON =>
          simp only [hm₁] at hw
          cases hm₂ : Defi.marshalCropBalance
              { (Defi.orNewBalance stub now to_).1 with
                cropAmount := (Defi.orNewBalance stub now to_).1.cropAmount.add amount,
                timestamp := now ((Defi.orNewBalance stub now to_).2 + 1) } with
          | error e => simp [hm₂] at hw
          | ok toJSON =>
            simp only [hm₂] at hw
            have h₁ := Defi.marshalCropBalance_nonneg _ _ hm₁
              (fun y h => Float64.sub_nonneg _ amount y hlt h)
            have h₂ := Defi.marshalCropBalance_nonneg _ _ hm₂
              (fun y h => Float64.add_nonneg _ amount y (hnew to_) ha h)
            rcases Outcome.andThen_writes _ _ _ hw with h | h
            · rcases Stub.PutState_writes _ _ _ _ _ _ h with h | ⟨-, rfl⟩
              · simp at h
              · exact h₁
            · rcases Stub.PutState_writes _ _ _ _ _ _ h with h | ⟨-, rfl⟩
              · rcases Stub.PutState_writes _ _ _ _ _ _ h with h | ⟨-, rfl⟩
                · simp at h
                · exact h₁
              · exact h₂
  | discardSpoiledCrops farmer amount =>
    simp only [Defi.run, Defi.DiscardSpoiledCrops] at hw
    cases hg : Defi.GetCropBalance stub farmer with
    | error e => simp [hg] at hw
    | ok crops =>
      simp only [hg] at hw
      cases hlt : crops.cropAmount.lt amount with
      | true => simp [hlt] at hw
      | false =>
        simp only [hlt, Bool.false_eq_true, if_false] at hw
        cases hm : Defi.marshalCropBalance
            { crops with cropAmount := crops.cropAmount.sub amount,
                         timestamp := now 0 } with
        | error e => simp [hm] at hw
        | ok cropJSON =>
          simp only [hm] at hw
          rcases Stub.PutState_writes _ _ _ _ _ _ hw with h | ⟨-, rfl⟩
          · simp at h
          · exact Defi.marshalCropBalance_nonneg _ _ hm
              (fun y h => Float64.sub_nonneg _ amount y hlt h)
  | plantCrops farmer amount =>
    simp only [Defi.run, Defi.PlantCrops] at hw
    cases hg : Defi.GetCropBalance stub farmer with
    | error e => simp [hg] at hw
    | ok crops =>
      simp only [hg] at hw
      cases hlt : crops.cropAmount.lt amount with
      | true => simp [hlt] at hw
      | false =>
        simp only [hlt, Bool.false_eq_true, if_false] at hw
        cases hm : Defi.marshalCropBalance
            { crops with cropAmount := crops.cropAmount.sub amount,
                         timestamp := now 0 } with
        | error e => simp [hm] at hw
        | ok cropJSON =>
          simp only [hm] at hw
          have h₁ := Defi.marshalCropBalance_nonneg _ _ hm
            (fun y h => Float64.sub_nonneg _ amount y hlt h)
          rcases Outcome.andThen_writes _ _ _ hw with h | h
          · rcases Stub.PutState_writes _ _ _ _ _ _ h with h | ⟨-, rfl⟩
            · simp at h
            · exact h₁
          · cases hp : Defi.marshalPlantingInfo
                { farmer := farmer, plantedAmount := amount,
                  yield := Float64.lit 0.0, timestamp := now 2 } with
            | error e =>
              simp only [hp] at h
              rcases Stub.PutState_writes _ _ _ _ _ _ h with h | ⟨-, rfl⟩
              · simp at h
              · exact h₁
            | ok plantingJSON =>
              simp only [hp] at h
              rcases Stub.PutState_writes _ _ _ _ _ _ h with h | ⟨-, rfl⟩
              · rcases Stub.PutState_writes _ _ _ _ _ _ h with h | ⟨-, rfl⟩
                · simp at h
                · exact h₁
              · obtain ⟨x, y, -, -, rfl⟩ := Defi.marshalPlantingInfo_ok _ _ hp
                intro c hc z hz
                rw [Defi.unmarshalCropBalance_plantingInfoJSON] at hc
                cases hc
                cases hz
                exact Finite64.toRat_nonneg _ rfl
  | harvestPlantedCrops farmer amount =>
    simp only [Defi.Call.amount] at ha
    simp only [Defi.run, Defi.HarvestPlantedCrops] at hw
    cases hg : Defi.GetCropBalance stub farmer with
    | error e => simp [hg] at hw
    | ok crops =>
      simp only [hg] at hw
      cases hm : Defi.marshalCropBalance
          { crops with cropAmount := crops.cropAmount.add amount,
                       timestamp := now 0 } with
      | error e => simp [hm] at hw
      | ok cropJSON =>
        simp only [hm] at hw
        rcases Stub.PutState_writes _ _ _ _ _ _ hw with h | ⟨-, rfl⟩
        · simp at h
        · exact Defi.marshalCropBalance_nonneg _ _ hm
            (fun y h => Float64.add_nonneg _ amount y (hread farmer crops hg) ha h)

/-! ## defi: sign of the balances -/

/-- C2, as stated, fails: a harvest with a negative amount on the empty ledger succeeds
and commits a negative balance. -/
theorem Defi.negative_balance_reachable :
    Defi.Reachable Defi.afterNegativeHarvest ∧
    Defi.balance Defi.afterNegativeHarvest "Farmer1" = some (Finite64.lit (-5)) ∧
    (Finite64.lit (-5)).toRat = -5 ∧
    ¬ ((0 : ℚ) ≤ (Finite64.lit (-5)).toRat) := by
  refine ⟨?_, by decide!, by decide!, by decide!⟩
  exact Steps.step (Stub.healthy [] fun _ => []) (fun _ => "t0")
    (Defi.Call.harvestCrops "Farmer1" (Float64.lit (-5))) Steps.start trivial (by decide!)

theorem Defi.reachable_nonneg (s : WorldState) (hr : Defi.ReachableNonneg s) :
    ∀ x ∈ s, ∀ c, Defi.unmarshalCropBalance x.2 = .ok c →
      ∀ y, c.cropAmount = .finite y → 0 ≤ y.toRat := by
  refine Steps.invariant Defi.run _
    (fun _ v => ∀ c, Defi.unmarshalCropBalance v = .ok c →
      ∀ y, c.cropAmount = .finite y → 0 ≤ y.toRat) [] s ?_ ?_ hr
  · intro x hx; simp at hx
  · intro stub now call ha inv k v hw
    exact Defi.run_writes_nonneg stub now call
      (fun k v c h1 h2 => inv (k, v) (WorldState.mem_of_get _ k v h1) c h2) ha k v hw

/-- C2, amended: in every world state reachable from the empty ledger by successful defi
handler calls whose amounts are non-negative, every stored payload that decodes as a
`CropBalance` has a finite `cropAmount ≥ 0`. -/
theorem Defi.balances_nonneg (s : WorldState) (hr : Defi.ReachableNonneg s)
    (key : String) (payload : Payload) (crops : Defi.CropBalance)
    (hget : s.get key = some payload) (hdec : Defi.unmarshalCropBalance payload = .ok crops) :
    ∃ x, crops.cropAmount = .finite x ∧ 0 ≤ x.toRat := by
  obtain ⟨x, hx⟩ := Defi.unmarshalCropBalance_finite payload crops hdec
  exact ⟨x, hx, Defi.reachable_nonneg s hr (key, payload)
    (WorldState.mem_of_get s key payload hget) crops hdec x hx⟩

/-- C2, amended, on scenario 3: the state after `InitLedger` and the transfer of 400 is
reached with non-negative amounts, and Farmer1 holds 600 there. -/
theorem Defi.balances_nonneg_witness :
    Defi.ReachableNonneg Defi.afterTransfer ∧
    Defi.afterTransfer.get "Farmer1"
      = some (Defi.cropBalanceJSON "Farmer1" (Finite64.lit 600) "t1") ∧
    (Finite64.lit 600).toRat = 600 ∧
    ∃ x, (Float64.finite (Finite64.lit 600)) = .finite x ∧ 0 ≤ x.toRat := by
  have hr : Defi.ReachableNonneg Defi.afterTransfer :=
    Steps.step (Stub.healthy Defi.seeded fun _ => []) (fun _ => "t1")
      (Defi.Call.distributeCrops "Farmer1" "Farmer2" (Float64.lit 400))
      (Steps.step (Stub.healthy [] fun _ => []) (fun _ => "t0") Defi.Call.initLedger
        Steps.start (by decide!) (by decide!))
      (by decide!) (by decide!)
  have hget : Defi.afterTransfer.get "Farmer1"
      = some (Defi.cropBalanceJSON "Farmer1" (Finite64.lit 600) "t1") := by decide!
  exact ⟨hr, hget, by decide!,
    Defi.balances_nonneg _ hr "Farmer1" _ ⟨"Farmer1", .finite (Finite64.lit 600), "t1"⟩ hget
      (Defi.unmarshal_cropBalanceJSON _ _ _)⟩

/-! ## defi: planting records -/

/-- C3 at its failing input (scenario 4 of the specification): after `InitLedger` and a
successful `PlantCrops("Farmer1", 100)` the planting record sits under the plain key
`Planting_Farmer1_<time>`, and `GetPlantingInfo("Farmer1")`, which scans the composite
keys of object type `Planting`, returns the empty list. -/
theorem Defi.getPlantingInfo_after_plantCrops :
    (Defi.PlantCrops (Stub.healthy Defi.seeded fun _ => []) (fun _ => "t1") "Farmer1"
        (Float64.lit 100)).result
      = .ok () ∧
    Defi.afterPlanting.get "Planting_Farmer1_t1"
      = some (Defi.plantingInfoJSON "Farmer1" (Finite64.lit 100) (Finite64.lit 0) "t1") ∧
    Defi.balance Defi.afterPlanting "Farmer1" = some (Finite64.lit 900) ∧
    Defi.GetPlantingInfo (Stub.healthy Defi.afterPlanting fun _ => []) "Farmer1" = .ok [] := by
  decide!

/-! ## Primary keys -/

theorem Stub.DelState_writes (stub : Stub) (key : String) (k : String) (v : Payload) :
    Write.put k v ∉ (stub.DelState [] key).writes := by
  unfold Stub.DelState
  cases stub.delErr key <;> simp

theorem DataStorage.storage_initLoop_writes (stub : Stub) (k : String) (v : Payload) :
    ∀ (crops : List DataStorage.CropRecord) (staged : List Write),
      Write.put k v ∈ (DataStorage.initLoop stub crops staged).writes →
      Write.put k v ∈ staged ∨ ∃ c ∈ crops, k = c.id ∧ v = DataStorage.marshalCropRecord c := by
  intro crops
  induction crops with
  | nil => intro staged h; left; simpa [DataStorage.initLoop] using h
  | cons c rest ih =>
    intro staged h
    unfold DataStorage.initLoop at h
    cases hp : stub.putErr c.id with
    | some e => left; simpa [hp] using h
    | none =>
      simp only [hp] at h
      rcases ih _ h with h' | ⟨c', hc', hk, hv⟩
      · simp at h'
        rcases h' with h' | ⟨rfl, rfl⟩
        · left; exact h'
        · right; exact ⟨c, List.mem_cons_self _ _, rfl, rfl⟩
      · right; exact ⟨c', List.mem_cons_of_mem _ hc', hk, hv⟩

/-- Every data-storage write stores an encoded record under the record's own id. -/
theorem DataStorage.storage_run_writes (stub : Stub) (now : Clock) (call : DataStorage.Call)
    (k : String) (v : Payload) (hw : Write.put k v ∈ (DataStorage.run stub now call).writes) :
    ∃ c, v = DataStorage.marshalCropRecord c ∧ c.id = k := by
  cases call with
  | initFarm =>
    rcases DataStorage.storage_initLoop_writes stub k v _ _ hw with h | ⟨c, -, rfl, rfl⟩
    · simp at h
    · exact ⟨c, rfl, rfl⟩
  | plantCrop id data =>
    simp only [DataStorage.run, DataStorage.PlantCrop] at hw
    cases he : DataStorage.CropExists stub id with
    | error e => simp [he] at hw
    | ok found =>
      cases found with
      | true => simp [he] at hw
      | false =>
        simp only [he] at hw
        rcases Stub.PutState_writes _ _ _ _ _ _ hw with h | ⟨rfl, rfl⟩
        · simp at h
        · exact ⟨_, rfl, rfl⟩
  | updateCrop id data =>
    simp only [DataStorage.run, DataStorage.UpdateCrop] at hw
    cases he : DataStorage.CropExists stub id with
    | error e => simp [he] at hw
    | ok found =>
      cases found with
      | false => simp [he] at hw
      | true =>
        simp only [he] at hw
        rcases Stub.PutState_writes _ _ _ _ _ _ hw with h | ⟨rfl, rfl⟩
        · simp at h
        · exact ⟨_, rfl, rfl⟩
  | removeCrop id =>
    simp only [DataStorage.run, DataStorage.RemoveCrop] at hw
    cases he : DataStorage.CropExists stub id with
    | error e => simp [he] at hw
    | ok found =>
      cases found with
      | false => simp [he] at hw
      | true =>
        simp only [he] at hw
        exact absurd hw (Stub.DelState_writes _ _ _ _)

theorem DataStorage.storage_reachable_keys (s : WorldState) (hr : DataStorage.Reachable s) :
    ∀ x ∈ s, ∃ c, DataStorage.unmarshalCropRecord x.2 = .ok c ∧ c.id = x.1 := by
  refine Steps.invariant DataStorage.run _
    (fun k v => ∃ c, DataStorage.unmarshalCropRecord v = .ok c ∧ c.id = k) [] s ?_ ?_ hr
  · intro x hx; simp at hx
  · intro stub now call _ _ k v hw
    obtain ⟨c, rfl, hc⟩ := DataStorage.storage_run_writes stub now call k v hw
    exact ⟨c, DataStorage.storage_unmarshal_marshal c, hc⟩

theorem Monitoring.monitoring_initLoop_writes (stub : Stub) (k : String) (v : Payload) :
    ∀ (records : List Monitoring.CropRecord) (staged : List Write),
      Write.put k v ∈ (Monitoring.initLoop stub records staged).writes →
      Write.put k v ∈ staged ∨
        ∃ c ∈ records, k = c.id ∧ Monitoring.marshalCropRecord c = .ok v := by
  intro records
  induction records with
  | nil => intro staged h; left; simpa [Monitoring.initLoop] using h
  | cons c rest ih =>
    intro staged h
    unfold Monitoring.initLoop at h
    cases hm : Monitoring.marshalCropRecord c with
    | error e => left; simpa [hm] using h
    | ok recordJSON =>
      simp only [hm] at h
      cases hp : stub.putErr c.id with
      | some e => left; simpa [hp] using h
      | none =>
        simp only [hp] at h
        rcases ih _ h with h' | ⟨c', hc', hk, hv⟩
        · simp at h'
          rcases h' with h' | ⟨rfl, rfl⟩
          · left; exact h'
          · right; exact ⟨c, List.mem_cons_self _ _, rfl, hm⟩
        · right; exact ⟨c', List.mem_cons_of_mem _ hc', hk, hv⟩

/-- Every monitoring write stores an encoded record under the record's own id. -/
theorem Monitoring.monitoring_run_writes (stub : Stub) (now : Clock) (call : Monitoring.Call)
    (k : String) (v : Payload) (hw : Write.put k v ∈ (Monitoring.run stub now call).writes) :
    ∃ c, Monitoring.marshalCropRecord c = .ok v ∧ c.id = k := by
  cases call with
  | initLedger =>
    rcases Monitoring.monitoring_initLoop_writes stub k v _ _ hw with h | ⟨c, -, rfl, hm⟩
    · simp at h
    · exact ⟨c, hm, rfl⟩
  | addCropRecord id cropType yield =>
    simp only [Monitoring.run, Monitoring.AddCropRecord] at hw
    cases he : Monitoring.CropRecordExists stub id with
    | error e => simp [he] at hw
    | ok found =>
      cases found with
      | true => simp [he] at hw
      | false =>
        simp only [he, Bool.false_eq_true, if_false] at hw
        cases hm : Monitoring.marshalCropRecord
            { id := id, cropType := cropType, yield := yield, timestamp := now 0 } with
        | error e => simp [hm] at hw
        | ok recordJSON =>
          simp only [hm] at hw
          rcases Stub.PutState_writes _ _ _ _ _ _ hw with h | ⟨rfl, rfl⟩
          · simp at h
          · exact ⟨_, hm, rfl⟩
  | updateCropRecord id cropType yield =>
    simp only [Monitoring.run, Monitoring.UpdateCropRecord] at hw
    cases he : Monitoring.CropRecordExists stub id with
    | error e => simp [he] at hw
    | ok found =>
      cases found with
      | false => simp [he] at hw
      | true =>
        simp only [he, Bool.not_true, Bool.false_eq_true, if_false] at hw
        cases hm : Monitoring.marshalCropRecord
            { id := id, cropType := cropType, yield := yield, timestamp := now 0 } with
        | error e => simp [hm] at hw
        | ok recordJSON =>
          simp only [hm] at hw
          rcases Stub.PutState_writes _ _ _ _ _ _ hw with h | ⟨rfl, rfl⟩
          · simp at h
          · exact ⟨_, hm, rfl⟩
  | deleteCropRecord id =>
    simp only [Monitoring.run, Monitoring.DeleteCropRecord] at hw
    cases he : Monitoring.CropRecordExists stub id with
    | error e => simp [he] at hw
    | ok found =>
      cases found with
      | false => simp [he] at hw
      | true =>
        simp only [he] at hw
        exact absurd hw (Stub.DelState_writes _ _ _ _)

theorem Monitoring.monitoring_reachable_keys (s : WorldState) (hr : Monitoring.Reachable s) :
    ∀ x ∈ s, ∃ c, Monitoring.unmarshalCropRecord x.2 = .ok c ∧ c.id = x.1 := by
  refine Steps.invariant Monitoring.run _
    (fun k v => ∃ c, Monitoring.unmarshalCropRecord v = .ok c ∧ c.id = k) [] s ?_ ?_ hr
  · intro x hx; simp at hx
  · intro stub now call _ _ k v hw
    obtain ⟨c, hm, hc⟩ := Monitoring.monitoring_run_writes stub now call k v hw
    obtain ⟨x, -, rfl⟩ := Monitoring.marshalCropRecord_ok c v hm
    exact ⟨_, Monitoring.monitoring_unmarshal_marshal _ _ _ _, hc⟩

theorem SupplyChain.chain_initLoop_writes (stub : Stub) (k : String) (v : Payload) :
    ∀ (crops : List SupplyChain.Crop) (staged : List Write),
      Write.put k v ∈ (SupplyChain.initLoop stub crops staged).writes →
      Write.put k v ∈ staged ∨ ∃ c ∈ crops, k = c.cropID ∧ v = SupplyChain.marshalCrop c := by
  intro crops
  induction crops with
  | nil => intro staged h; left; simpa [SupplyChain.initLoop] using h
  | cons c rest ih =>
    intro staged h
    unfold SupplyChain.initLoop at h
    cases hp : stub.putErr c.cropID with
    | some e => left; simpa [hp] using h
    | none =>
      simp only [hp] at h
      rcases ih _ h with h' | ⟨c', hc', hk, hv⟩
      · simp at h'
        rcases h' with h' | ⟨rfl, rfl⟩
        · left; exact h'
        · right; exact ⟨c, List.mem_cons_self _ _, rfl, rfl⟩
      · right; exact ⟨c', List.mem_cons_of_mem _ hc', hk, hv⟩

theorem SupplyChain.readCrop_ok (stub : Stub) (cropID : String) (c : SupplyChain.Crop)
    (h : SupplyChain.ReadCrop stub cropID = .ok c) :
    ∃ v, stub.state.get cropID = some v ∧ SupplyChain.unmarshalCrop v = .ok c := by
  unfold SupplyChain.ReadCrop Stub.GetState at h
  cases hg : stub.getErr cropID with
  | some e => simp [hg] at h
  | none =>
    cases hs : stub.state.get cropID with
    | none => simp [hg, hs] at h
    | some v => exact ⟨v, rfl, by simpa [hg, hs] using h⟩

/-- What the supply-chain handlers write: the two seed crops, a registered crop under
its own id, or the crop read at `cropID` with a new owner and timestamp under `cropID`. -/
theorem SupplyChain.chain_run_writes (stub : Stub) (now : Clock) (call : SupplyChain.Call)
    (k : String) (v : Payload) (hw : Write.put k v ∈ (SupplyChain.run stub now call).writes) :
    (∃ c, v = SupplyChain.marshalCrop c ∧ c.cropID = k ∧
      ((call = .initLedger ∧ (k = "C001" ∨ k = "C002")) ∨ stub.state.get k = none)) ∨
    (∃ old owner ts, SupplyChain.ReadCrop stub k = .ok old ∧
      v = SupplyChain.marshalCrop { old with currentOwner := owner, timestamp := ts }) := by
  cases call with
  | initLedger =>
    rcases SupplyChain.chain_initLoop_writes stub k v _ _ hw with h | ⟨c, hc, rfl, rfl⟩
    · simp at h
    · refine Or.inl ⟨c, rfl, rfl, Or.inl ⟨rfl, ?_⟩⟩
      simp only [List.mem_cons, List.mem_singleton, List.not_mem_nil, or_false] at hc
      rcases hc with rfl | rfl
      · left; rfl
      · right; rfl
  | registerCrop cropID name farmer currentOwner fieldLocation =>
    simp only [SupplyChain.run, SupplyChain.RegisterCrop] at hw
    cases he : SupplyChain.CropExists stub cropID with
    | error e => simp [he] at hw
    | ok found =>
      cases found with
      | true => simp [he] at hw
      | false =>
        simp only [he] at hw
        rcases Stub.PutState_writes _ _ _ _ _ _ hw with h | ⟨rfl, rfl⟩
        · simp at h
        · refine Or.inl ⟨_, rfl, rfl, Or.inr ?_⟩
          unfold SupplyChain.CropExists Stub.GetState at he
          cases hg : stub.getErr k with
          | some e => simp [hg] at he
          | none =>
            simp only [hg, Except.ok.injEq] at he
            cases hs : stub.state.get k with
            | none => rfl
            | some v => simp [hs] at he
  | transferCrop cropID newOwner =>
    simp only [SupplyChain.run, SupplyChain.TransferCrop] at hw
    cases hread : SupplyChain.ReadCrop stub cropID with
    | error e => simp [hread] at hw
    | ok crop =>
      simp only [hread] at hw
      rcases Stub.PutState_writes _ _ _ _ _ _ hw with h | ⟨rfl, rfl⟩
      · simp at h
      · exact Or.inr ⟨crop, newOwner, now 0, hread, rfl⟩

theorem SupplyChain.chain_reachable_keys (s : WorldState) (hr : SupplyChain.Reachable s) :
    ∀ x ∈ s, ∃ c, SupplyChain.unmarshalCrop x.2 = .ok c ∧ c.cropID = x.1 := by
  refine Steps.invariant SupplyChain.run _
    (fun k v => ∃ c, SupplyChain.unmarshalCrop v = .ok c ∧ c.cropID = k) [] s ?_ ?_ hr
  · intro x hx; simp at hx
  · intro stub now call _ inv k v hw
    rcases SupplyChain.chain_run_writes stub now call k v hw with
      ⟨c, rfl, hc, -⟩ | ⟨old, owner, ts, hread, rfl⟩
    · exact ⟨c, SupplyChain.unmarshal_marshalCrop c, hc⟩
    · obtain ⟨v, hv, hdec⟩ := SupplyChain.readCrop_ok stub k old hread
      obtain ⟨c, hc, hid⟩ := inv (k, v) (WorldState.mem_of_get _ k v hv)
      rw [hdec] at hc
      cases hc
      exact ⟨_, SupplyChain.unmarshal_marshalCrop _, hid⟩

/-- What the defi handlers write: an encoded balance whose farmer is the key, the
balance read at the key with a new amount and timestamp, or an encoded planting record
under the planting key of its farmer. -/
theorem Defi.defi_run_writes (stub : Stub) (now : Clock) (call : Defi.Call)
    (k : String) (v : Payload) (hw : Write.put k v ∈ (Defi.run stub now call).writes) :
    (∃ c, Defi.marshalCropBalance c = .ok v ∧ c.farmer = k) ∨
    (∃ old amt ts, Defi.GetCropBalance stub k = .ok old ∧
      Defi.marshalCropBalance { old with cropAmount := amt, timestamp := ts } = .ok v) ∨
    (∃ p ts, Defi.marshalPlantingInfo p = .ok v ∧ k = "Planting_" ++ p.farmer ++ "_" ++ ts) := by
  have hnew : ∀ f amt ts, Defi.marshalCropBalance { (Defi.orNewBalance stub now f).1 with
        cropAmount := amt, timestamp := ts } = .ok v →
      (∃ c, Defi.marshalCropBalance c = .ok v ∧ c.farmer = f) ∨
      (∃ old amt' ts', Defi.GetCropBalance stub f = .ok old ∧
        Defi.marshalCropBalance { old with cropAmount := amt', timestamp := ts' } = .ok v) := by
    intro f amt ts
    unfold Defi.orNewBalance
    cases hg : Defi.GetCropBalance stub f with
    | error e => intro h; left; exact ⟨_, h, rfl⟩
    | ok c => intro h; right; exact ⟨c, amt, ts, rfl, h⟩
  cases call with
  | initLedger =>
    rcases Defi.defi_initLoop_writes stub k v _ _ hw with h | ⟨c, -, rfl, hm⟩
    · simp at h
    · exact Or.inl ⟨c, hm, rfl⟩
  | harvestCrops farmer amount =>
    simp only [Defi.run, Defi.HarvestCrops] at hw
    cases hm : Defi.marshalCropBalance
        { (Defi.orNewBalance stub now farmer).1 with
          cropAmount := (Defi.orNewBalance stub now farmer).1.cropAmount.add amount,
          timestamp := now (Defi.orNewBalance stub now farmer).2 } with
    | error e => simp [hm] at hw
    | ok cropJSON =>
      simp only [hm] at hw
      rcases Stub.PutState_writes _ _ _ _ _ _ hw with h | ⟨rfl, rfl⟩
      · simp at h
      · rcases hnew k _ _ hm with h | h
        · exact Or.inl h
        · exact Or.inr (Or.inl h)
  | distributeCrops from_ to_ amount =>
    simp only [Defi.run, Defi.DistributeCrops] at hw
    cases hg : Defi.GetCropBalance stub from_ with
    | error e => simp [hg] at hw
    | ok fromCrops =>
      simp only [hg] at hw
      cases hlt : fromCrops.cropAmount.lt amount with
      | true => simp [hlt] at hw
      | false =>
        simp only [hlt, Bool.false_eq_true, if_false] at hw
        cases hm₁ : Defi.marshalCropBalance
            { fromCrops with
              cropAmount := fromCrops.cropAmount.sub amount,
              timestamp := now (Defi.orNewBalance stub now to_).2 } with
        | error e => simp [hm₁] at hw
        | ok fromJSON =>
          simp only [hm₁] at hw
          cases hm₂ : Defi.marshalCropBalance
              { (Defi.orNewBalance stub now to_).1 with
                cropAmount := (Defi.orNewBalance stub now to_).1.cropAmount.add amount,
                timestamp := now ((Defi.orNewBalance stub now to_).2 + 1) } with
          | error e => simp [hm₂] at hw
          | ok toJSON =>
            simp only [hm₂] at hw
            have hfrom : ∀ k v, Write.put k v ∈ (stub.PutState [] from_ fromJSON).writes →
                ∃ old amt ts, Defi.GetCropBalance stub k = .ok old ∧
                  Defi.marshalCropBalance { old with cropAmount := amt, timestamp := ts }
                    = .ok v := by
              intro k v h
              rcases Stub.PutState_writes _ _ _ _ _ _ h with h | ⟨rfl, rfl⟩
              · simp at h
              · exact ⟨fromCrops, _, _, hg, hm₁⟩
            rcases Outcome.andThen_writes _ _ _ hw with h | h
            · exact Or.inr (Or.inl (hfrom k v h))
            · rcases Stub.PutState_writes _ _ _ _ _ _ h with h | ⟨rfl, rfl⟩
              · exact Or.inr (Or.inl (hfrom k v h))
              · rcases hnew k _ _ hm₂ with h | h
                · exact Or.inl h
                · exact Or.inr (Or.inl h)
  | discardSpoiledCrops farmer amount =>
    simp only [Defi.run, Defi.DiscardSpoiledCrops] at hw
    cases hg : Defi.GetCropBalance stub farmer with
    | error e => simp [hg] at hw
    | ok crops =>
      simp only [hg] at hw
      cases hlt : crops.cropAmount.lt amount with
      | true => simp [hlt] at hw
      | false =>
        simp only [hlt, Bool.false_eq_true, if_false] at hw
        cases hm : Defi.marshalCropBalance
            { crops with cropAmount := crops.cropAmount.sub amount,
                         timestamp := now 0 } with
        | error e => simp [hm] at hw
        | ok cropJSON =>
          simp only [hm] at hw
          rcases Stub.PutState_writes _ _ _ _ _ _ hw with h | ⟨rfl, rfl⟩
          · simp at h
          · exact Or.inr (Or.inl ⟨crops, _, _, hg, hm⟩)
  | plantCrops farmer amount =>
    simp only [Defi.run, Defi.PlantCrops] at hw
    cases hg : Defi.GetCropBalance stub farmer with
    | error e => simp [hg] at hw
    | ok crops =>
      simp only [hg] at hw
      cases hlt : crops.cropAmount.lt amount with
      | true => simp [hlt] at hw
      | false =>
        simp only [hlt, Bool.false_eq_true, if_false] at hw
        cases hm : Defi.marshalCropBalance
            { crops with cropAmount := crops.cropAmount.sub amount,
                         timestamp := now 0 } with
        | error e => simp [hm] at hw
        | ok cropJSON =>
          simp only [hm] at hw
          have hfirst : ∀ k v, Write.put k v ∈ (stub.PutState [] farmer cropJSON).writes →
              ∃ old amt ts, Defi.GetCropBalance stub k = .ok old ∧
                Defi.marshalCropBalance { old with cropAmount := amt, timestamp := ts }
                  = .ok v := by
            intro k v h
            rcases Stub.PutState_writes _ _ _ _ _ _ h with h | ⟨rfl, rfl⟩
            · simp at h
            · exact ⟨crops, _, _, hg, hm⟩
          rcases Outcome.andThen_writes _ _ _ hw with h | h
          · exact Or.inr (Or.inl (hfirst k v h))
          · cases hp : Defi.marshalPlantingInfo
                { farmer := farmer, plantedAmount := amount,
                  yield := Float64.lit 0.0, timestamp := now 2 } with
            | error e =>
              simp only [hp] at h
              exact Or.inr (Or.inl (hfirst k v h))
            | ok plantingJSON =>
              simp only [hp] at h
              rcases Stub.PutState_writes _ _ _ _ _ _ h with h | ⟨rfl, rfl⟩
              · exact Or.inr (Or.inl (hfirst k v h))
              · exact Or.inr (Or.inr ⟨_, now 1, hp, rfl⟩)
  | harvestPlantedCrops farmer amount =>
    simp only [Defi.run, Defi.HarvestPlantedCrops] at hw
    cases hg : Defi.GetCropBalance stub farmer with
    | error e => simp [hg] at hw
    | ok crops =>
      simp only [hg] at hw
      cases hm : Defi.marshalCropBalance
          { crops with cropAmount := crops.cropAmount.add amount,
                       timestamp := now 0 } with
      | error e => simp [hm] at hw
      | ok cropJSON =>
        simp only [hm] at hw
        rcases Stub.PutState_writes _ _ _ _ _ _ hw with h | ⟨rfl, rfl⟩
        · simp at h
        · exact Or.inr (Or.inl ⟨crops, _, _, hg, hm⟩)

theorem Defi.defi_reachable_keys (s : WorldState) (hr : Defi.Reachable s) :
    ∀ x ∈ s, ∃ c, Defi.unmarshalCropBalance x.2 = .ok c ∧
      (c.farmer = x.1 ∨ ∃ ts, x.1 = "Planting_" ++ c.farmer ++ "_" ++ ts) := by
  refine Steps.invariant Defi.run _
    (fun k v => ∃ c, Defi.unmarshalCropBalance v = .ok c ∧
      (c.farmer = k ∨ ∃ ts, k = "Planting_" ++ c.farmer ++ "_" ++ ts)) [] s ?_ ?_ hr
  · intro x hx; simp at hx
  · intro stub now call _ inv k v hw
    rcases Defi.defi_run_writes stub now call k v hw with
      ⟨c, hm, hc⟩ | ⟨old, amt, ts, hread, hm⟩ | ⟨p, ts, hm, hk⟩
    · obtain ⟨x, -, rfl⟩ := Defi.marshalCropBalance_ok c v hm
      exact ⟨_, Defi.unmarshal_cropBalanceJSON _ _ _, Or.inl hc⟩
    · obtain ⟨w, hw', hdec⟩ := Defi.getCropBalance_ok stub k old hread
      obtain ⟨c, hc, hid⟩ := inv (k, w) (WorldState.mem_of_get _ k w hw')
      rw [hdec] at hc
      cases hc
      obtain ⟨x, -, rfl⟩ := Defi.marshalCropBalance_ok _ v hm
      exact ⟨_, Defi.unmarshal_cropBalanceJSON _ _ _, hid⟩
    · obtain ⟨x, y, -, -, rfl⟩ := Defi.marshalPlantingInfo_ok p v hm
      exact ⟨_, Defi.unmarshalCropBalance_plantingInfoJSON _ _ _ _, Or.inr ⟨ts, hk⟩⟩

theorem Defi.afterPlanting_reachable : Defi.Reachable Defi.afterPlanting :=
  Steps.step (Stub.healthy Defi.seeded fun _ => []) (fun _ => "t1")
    (Defi.Call.plantCrops "Farmer1" (Float64.lit 100))
    (Steps.step (Stub.healthy [] fun _ => []) (fun _ => "t0") Defi.Call.initLedger
      Steps.start trivial (by decide!))
    trivial (by decide!)

/-- C4, as stated, fails in the defi module: after `InitLedger` and
`PlantCrops("Farmer1", 100)` the reachable world state holds the key
`Planting_Farmer1_t1`, whose payload decodes as a `CropBalance` with farmer `Farmer1`,
which is not the key; `GetAllCropBalances` returns that record. -/
theorem Defi.planting_key_breaks_primary_key :
    Defi.Reachable Defi.afterPlanting ∧
    Defi.afterPlanting.get "Planting_Farmer1_t1"
      = some (Defi.plantingInfoJSON "Farmer1" (Finite64.lit 100) (Finite64.lit 0) "t1") ∧
    Defi.unmarshalCropBalance
        (Defi.plantingInfoJSON "Farmer1" (Finite64.lit 100) (Finite64.lit 0) "t1")
      = .ok ⟨"Farmer1", .finite (Finite64.lit 0), "t1"⟩ ∧
    "Farmer1" ≠ "Planting_Farmer1_t1" ∧
    Defi.GetAllCropBalances (Stub.healthy Defi.afterPlanting fun _ => [])
      = .ok [⟨"Farmer1", .finite (Finite64.lit 900), "t1"⟩,
             ⟨"Farmer2", .finite (Finite64.lit 500), "t0"⟩,
             ⟨"Farmer1", .finite (Finite64.lit 0), "t1"⟩] := by
  exact ⟨Defi.afterPlanting_reachable, by decide!, by decide!, by decide, by decide!⟩

/-- C4, amended: in data-storage, monitoring and supply-chain, every entry of a world
state reachable from the empty ledger by successful handler calls decodes to a record
whose key field (id, id, cropID) is the key it is stored under, and the full-range scan
returns only records stored under their own key field.  In defi, every entry of a
reachable world state decodes as a `CropBalance` whose farmer is the key, or else the
key is a planting key `Planting_<farmer>_<time>` of that farmer. -/
theorem primary_key_invariant :
    (∀ s, DataStorage.Reachable s →
      (∀ x ∈ s, ∃ c, DataStorage.unmarshalCropRecord x.2 = .ok c ∧ c.id = x.1) ∧
      ∀ stub crops, stub.state = s → DataStorage.GetAllCrops stub = .ok crops →
        ∀ c ∈ crops, ∃ v, (c.id, v) ∈ s ∧ DataStorage.unmarshalCropRecord v = .ok c) ∧
    (∀ s, Monitoring.Reachable s →
      (∀ x ∈ s, ∃ c, Monitoring.unmarshalCropRecord x.2 = .ok c ∧ c.id = x.1) ∧
      ∀ stub records, stub.state = s → Monitoring.GetAllCropRecords stub = .ok records →
        ∀ c ∈ records, ∃ v, (c.id, v) ∈ s ∧ Monitoring.unmarshalCropRecord v = .ok c) ∧
    (∀ s, SupplyChain.Reachable s →
      (∀ x ∈ s, ∃ c, SupplyChain.unmarshalCrop x.2 = .ok c ∧ c.cropID = x.1) ∧
      ∀ stub crops, stub.state = s → SupplyChain.GetAllCrops stub = .ok crops →
        ∀ c ∈ crops, ∃ v, (c.cropID, v) ∈ s ∧ SupplyChain.unmarshalCrop v = .ok c) ∧
    (∀ s, Defi.Reachable s →
      ∀ x ∈ s, ∃ c, Defi.unmarshalCropBalance x.2 = .ok c ∧
        (c.farmer = x.1 ∨ ∃ ts, x.1 = "Planting_" ++ c.farmer ++ "_" ++ ts)) := by
  refine ⟨?_, ?_, ?_, Defi.defi_reachable_keys⟩
  · intro s hr
    refine ⟨DataStorage.storage_reachable_keys s hr, ?_⟩
    rintro stub crops rfl hall c hc
    unfold DataStorage.GetAllCrops at hall
    cases hscan : stub.GetStateByRange "" "" with
    | error e => simp [hscan] at hall
    | ok results =>
      simp only [hscan] at hall
      obtain ⟨x, hx, hdec⟩ := iterLoop_mem _ _ _ hall c hc
      have hmem := Stub.GetStateByRange_mem stub _ _ _ hscan x hx
      obtain ⟨c', hc', hid⟩ := DataStorage.storage_reachable_keys _ hr x hmem
      rw [hdec] at hc'
      cases hc'
      exact ⟨x.2, by rw [hid]; exact hmem, hdec⟩
  · intro s hr
    refine ⟨Monitoring.monitoring_reachable_keys s hr, ?_⟩
    rintro stub records rfl hall c hc
    unfold Monitoring.GetAllCropRecords at hall
    cases hscan : stub.GetStateByRange "" "" with
    | error e => simp [hscan] at hall
    | ok results =>
      simp only [hscan] at hall
      obtain ⟨x, hx, hdec⟩ := iterLoop_mem _ _ _ hall c hc
      have hmem := Stub.GetStateByRange_mem stub _ _ _ hscan x hx
      obtain ⟨c', hc', hid⟩ := Monitoring.monitoring_reachable_keys _ hr x hmem
      rw [hdec] at hc'
      cases hc'
      exact ⟨x.2, by rw [hid]; exact hmem, hdec⟩
  · intro s hr
    refine ⟨SupplyChain.chain_reachable_keys s hr, ?_⟩
    rintro stub crops rfl hall c hc
    unfold SupplyChain.GetAllCrops at hall
    cases hscan : stub.GetStateByRange "" "" with
    | error e => simp [hscan] at hall
    | ok results =>
      simp only [hscan] at hall
      obtain ⟨x, hx, hdec⟩ := iterLoop_mem _ _ _ hall c hc
      have hmem := Stub.GetStateByRange_mem stub _ _ _ hscan x hx
      obtain ⟨c', hc', hid⟩ := SupplyChain.chain_reachable_keys _ hr x hmem
      rw [hdec] at hc'
      cases hc'
      exact ⟨x.2, by rw [hid]; exact hmem, hdec⟩

/-- C4, amended, on scenario 4: the planting entry of the state after `InitLedger` and
`PlantCrops("Farmer1", 100)` is stored under the planting key of its farmer. -/
theorem primary_key_invariant_witness :
    Defi.Reachable Defi.afterPlanting ∧
    ("Planting_Farmer1_t1",
        Defi.plantingInfoJSON "Farmer1" (Finite64.lit 100) (Finite64.lit 0) "t1")
      ∈ Defi.afterPlanting ∧
    ∃ c, Defi.unmarshalCropBalance
        (Defi.plantingInfoJSON "Farmer1" (Finite64.lit 100) (Finite64.lit 0) "t1") = .ok c ∧
      (c.farmer = "Planting_Farmer1_t1" ∨
        ∃ ts, "Planting_Farmer1_t1" = "Planting_" ++ c.farmer ++ "_" ++ ts) :=
  have hmem : ("Planting_Farmer1_t1",
      Defi.plantingInfoJSON "Farmer1" (Finite64.lit 100) (Finite64.lit 0) "t1")
      ∈ Defi.afterPlanting := by decide!
  ⟨Defi.afterPlanting_reachable, hmem,
    primary_key_invariant.2.2.2 _ Defi.afterPlanting_reachable _ hmem⟩

/-! ## History projection -/

theorem iterLoop_total {ι ρ : Type} (body : ι → Except String ρ) (xs : List ι)
    (h : ∀ x ∈ xs, ∃ y, body x = .ok y) :
    ∃ ys, iterLoop body xs [] = .ok ys ∧ List.Forall₂ (fun x y => body x = .ok y) xs ys := by
  have hex : ∃ ys, List.Forall₂ (fun x y => body x = .ok y) xs ys := by
    induction xs with
    | nil => exact ⟨[], List.Forall₂.nil⟩
    | cons x rest ih =>
      obtain ⟨y, hy⟩ := h x (List.mem_cons_self _ _)
      obtain ⟨ys, hys⟩ := ih (fun x' hx' => h x' (List.mem_cons_of_mem _ hx'))
      exact ⟨y :: ys, List.Forall₂.cons hy hys⟩
  obtain ⟨ys, hys⟩ := hex
  exact ⟨ys, (iterLoop_ok_iff body xs [] ys).mpr ⟨ys, rfl, hys⟩, hys⟩

theorem projectCommit_ok {ρ : Type} (unmarshal : Payload → Except String ρ) (placeholder : ρ)
    (c : KeyModification) (e : HistoryEntry ρ)
    (h : projectCommit unmarshal placeholder c = .ok e) :
    e.txId = c.txId ∧ e.isDelete = c.isDelete ∧ ptypesTimestamp c.timestamp = .ok e.timestamp ∧
    (∀ v, c.value = some v → unmarshal v = .ok e.record) ∧
    (c.value = none → e.record = placeholder) := by
  unfold projectCommit at h
  cases hv : c.value with
  | none =>
    simp only [hv] at h
    cases ht : ptypesTimestamp c.timestamp with
    | error err => simp [ht] at h
    | ok t =>
      simp only [ht, Except.ok.injEq] at h
      subst h
      simp
  | some v =>
    simp only [hv] at h
    cases hd : unmarshal v with
    | error err => simp [hd] at h
    | ok r =>
      cases ht : ptypesTimestamp c.timestamp with
      | error err => simp [hd, ht] at h
      | ok t =>
        simp only [hd, ht, Except.ok.injEq] at h
        subst h
        simp [hd]

theorem projectCommit_total {ρ : Type} (unmarshal : Payload → Except String ρ) (placeholder : ρ)
    (c : KeyModification) (hd : ∀ v, c.value = some v → ∃ r, unmarshal v = .ok r)
    (ht : ∃ t, ptypesTimestamp c.timestamp = .ok t) :
    ∃ e, projectCommit unmarshal placeholder c = .ok e := by
  obtain ⟨t, ht⟩ := ht
  unfold projectCommit
  cases hv : c.value with
  | none => simp [ht]
  | some v =>
    obtain ⟨r, hr⟩ := hd v hv
    simp [hr, ht]

/-- The projection loop over a log whose values decode and whose timestamps convert
returns one entry per commit, each built from its commit. -/
theorem projection_loop {ρ : Type} (unmarshal : Payload → Except String ρ) (placeholder : ρ)
    (log : List KeyModification) (hd : Decodes unmarshal log) (ht : Converts log) :
    ∃ entries, iterLoop (projectCommit unmarshal placeholder) log [] = .ok entries ∧
      IsProjection unmarshal log entries ∧ TombstonesKept placeholder log entries := by
  obtain ⟨entries, hrun, hall⟩ := iterLoop_total (projectCommit unmarshal placeholder) log
    (fun c hc => projectCommit_total unmarshal placeholder c (hd c hc) (ht c hc))
  refine ⟨entries, hrun, ⟨hall.length_eq.symm, ?_⟩, ?_⟩
  · refine hall.imp ?_
    intro c e h
    obtain ⟨h1, h2, h3, h4, -⟩ := projectCommit_ok unmarshal placeholder c e h
    exact ⟨h1, h2, h3, h4⟩
  · refine hall.imp ?_
    intro c e h hv
    obtain ⟨-, h2, -, -, h5⟩ := projectCommit_ok unmarshal placeholder c e h
    exact ⟨h5 hv, h2⟩

/-- The projection loop returns entries only for a log whose non-empty values all
decode and whose timestamps all convert. -/
theorem projection_loop_only_if {ρ : Type} (unmarshal : Payload → Except String ρ)
    (placeholder : ρ) (log : List KeyModification) (entries : List (HistoryEntry ρ))
    (h : iterLoop (projectCommit unmarshal placeholder) log [] = .ok entries) :
    Decodes unmarshal log ∧ Converts log := by
  obtain ⟨ys, -, hf⟩ := (iterLoop_ok_iff _ log [] entries).mp h
  clear h
  induction hf with
  | nil => exact ⟨fun c hc => by simp at hc, fun c hc => by simp at hc⟩
  | cons h1 _ ih =>
    obtain ⟨-, -, h3, h4, -⟩ := projectCommit_ok unmarshal placeholder _ _ h1
    constructor
    · intro c hc v hv
      rcases List.mem_cons.mp hc with rfl | hc'
      · exact ⟨_, h4 v hv⟩
      · exact ih.1 c hc' v hv
    · intro c hc
      rcases List.mem_cons.mp hc with rfl | hc'
      · exact ⟨_, h3⟩
      · exact ih.2 c hc'

theorem Stub.GetHistoryForKey_ok (stub : Stub) (key : String) (h : stub.historyErr key = none) :
    stub.GetHistoryForKey key = .ok (stub.history key) := by
  simp [Stub.GetHistoryForKey, h]

/-- C5. For a key whose commit log the stub hands out, with every non-empty value
decoding and every timestamp converting, each history handler (`GetCropHistory` of
data-storage, defi and supply-chain, `GetCropRecordHistory` of monitoring) returns exactly
one entry per commit, in log order, entry `i` carrying the txId, delete flag and converted
timestamp of commit `i` and the decoded value of commit `i` when it is not empty. -/
theorem history_projection (stub : Stub) (key : String) (hstub : stub.historyErr key = none)
    (ht : Converts (stub.history key)) :
    (Decodes DataStorage.unmarshalCropRecord (stub.history key) →
      ∃ entries, DataStorage.GetCropHistory stub key = .ok entries ∧
        IsProjection DataStorage.unmarshalCropRecord (stub.history key) entries) ∧
    (Decodes Defi.unmarshalCropBalance (stub.history key) →
      ∃ entries, Defi.GetCropHistory stub key = .ok entries ∧
        IsProjection Defi.unmarshalCropBalance (stub.history key) entries) ∧
    (Decodes SupplyChain.unmarshalCrop (stub.history key) →
      ∃ entries, SupplyChain.GetCropHistory stub key = .ok entries ∧
        IsProjection SupplyChain.unmarshalCrop (stub.history key) entries) ∧
    (Decodes Monitoring.unmarshalCropRecord (stub.history key) →
      ∃ entries, Monitoring.GetCropRecordHistory stub key = .ok entries ∧
        IsProjection Monitoring.unmarshalCropRecord (stub.history key) entries) := by
  refine ⟨?_, ?_, ?_, ?_⟩
  · intro hd
    obtain ⟨entries, hrun, hp, -⟩ := projection_loop DataStorage.unmarshalCropRecord
      { id := key, data := "", timestamp := "" } _ hd ht
    exact ⟨entries, by simp [DataStorage.GetCropHistory, Stub.GetHistoryForKey_ok, hstub, hrun], hp⟩
  · intro hd
    obtain ⟨entries, hrun, hp, -⟩ := projection_loop Defi.unmarshalCropBalance
      { farmer := key, cropAmount := .finite Finite64.zero, timestamp := "" } _ hd ht
    exact ⟨entries, by simp [Defi.GetCropHistory, Stub.GetHistoryForKey_ok, hstub, hrun], hp⟩
  · intro hd
    obtain ⟨entries, hrun, hp, -⟩ := projection_loop SupplyChain.unmarshalCrop
      { cropID := key, name := "", farmer := "", currentOwner := "", fieldLocation := "",
        timestamp := "" } _ hd ht
    exact ⟨entries, by simp [SupplyChain.GetCropHistory, Stub.GetHistoryForKey_ok, hstub, hrun], hp⟩
  · intro hd
    obtain ⟨entries, hrun, hp, -⟩ := projection_loop Monitoring.unmarshalCropRecord
      { id := key, cropType := "", yield := .finite Finite64.zero, timestamp := "" } _ hd ht
    exact ⟨entries,
      by simp [Monitoring.GetCropRecordHistory, Stub.GetHistoryForKey_ok, hstub, hrun], hp⟩

theorem Monitoring.afterUpdate_log :
    Monitoring.afterUpdate.stub.history "C" =
      [{ txId := "tx1", value := some (Monitoring.cropRecordJSON "C" "Rice" (Finite64.lit 42) "t1"),
         timestamp := some (1700000000, 0), isDelete := false },
       { txId := "tx2", value := some (Monitoring.cropRecordJSON "C" "Rice" (Finite64.lit 50) "t2"),
         timestamp := some (1700000060, 0), isDelete := false }] := by
  decide!

/-- C5 on scenario 5 of the specification: after `AddCropRecord("C", "Rice", 42.0)` and
`UpdateCropRecord("C", "Rice", 50.0)` the history of `C` has two entries, oldest first,
both not deleted, with yields 42 and 50. -/
theorem history_projection_witness :
    Monitoring.afterUpdate.stub.historyErr "C" = none ∧
    Converts (Monitoring.afterUpdate.stub.history "C") ∧
    Decodes Monitoring.unmarshalCropRecord (Monitoring.afterUpdate.stub.history "C") ∧
    Monitoring.GetCropRecordHistory Monitoring.afterUpdate.stub "C" =
      .ok [{ record := ⟨"C", "Rice", .finite (Finite64.lit 42), "t1"⟩, txId := "tx1", timestamp := (1700000000, 0),
             isDelete := false },
           { record := ⟨"C", "Rice", .finite (Finite64.lit 50), "t2"⟩, txId := "tx2", timestamp := (1700000060, 0),
             isDelete := false }] ∧
    ∃ entries, Monitoring.GetCropRecordHistory Monitoring.afterUpdate.stub "C" = .ok entries ∧
      IsProjection Monitoring.unmarshalCropRecord (Monitoring.afterUpdate.stub.history "C")
        entries := by
  have hc : Converts (Monitoring.afterUpdate.stub.history "C") := by
    intro c hc
    rw [Monitoring.afterUpdate_log] at hc
    simp only [List.mem_cons, List.mem_singleton, List.not_mem_nil, or_false] at hc
    rcases hc with rfl | rfl
    · exact ⟨(1700000000, 0), by decide⟩
    · exact ⟨(1700000060, 0), by decide⟩
  have hd : Decodes Monitoring.unmarshalCropRecord (Monitoring.afterUpdate.stub.history "C") := by
    intro c hc v hv
    rw [Monitoring.afterUpdate_log] at hc
    simp only [List.mem_cons, List.mem_singleton, List.not_mem_nil, or_false] at hc
    rcases hc with rfl | rfl
    · simp only [Option.some.injEq] at hv
      subst hv
      exact ⟨_, Monitoring.monitoring_unmarshal_marshal _ _ _ _⟩
    · simp only [Option.some.injEq] at hv
      subst hv
      exact ⟨_, Monitoring.monitoring_unmarshal_marshal _ _ _ _⟩
  exact ⟨rfl, hc, hd, by decide!,
    (history_projection Monitoring.afterUpdate.stub "C" rfl hc).2.2.2 hd⟩

/-- C6 fails as stated: the projector can fail on a commit with an empty payload, and
can fail before it reaches one. On a log of one delete commit that carries no timestamp,
all four history handlers take the placeholder record and then return the error of the
timestamp conversion. On a log whose first commit holds bytes that are not JSON and
whose second commit is a delete, the handlers return the decode error of the first
commit and no entry for the delete. -/
theorem history_fails_on_tombstone :
    DataStorage.tombstoneWithoutTime.history "X"
      = [{ txId := "tx1", value := none, timestamp := none, isDelete := true }] ∧
    DataStorage.tombstoneWithoutTime.historyErr "X" = none ∧
    projectCommit DataStorage.unmarshalCropRecord ⟨"X", "", ""⟩
        { txId := "tx1", value := none, timestamp := none, isDelete := true }
      = .error "timestamp: nil Timestamp" ∧
    DataStorage.GetCropHistory DataStorage.tombstoneWithoutTime "X"
      = .error "timestamp: nil Timestamp" ∧
    Defi.GetCropHistory DataStorage.tombstoneWithoutTime "X"
      = .error "timestamp: nil Timestamp" ∧
    SupplyChain.GetCropHistory DataStorage.tombstoneWithoutTime "X"
      = .error "timestamp: nil Timestamp" ∧
    Monitoring.GetCropRecordHistory DataStorage.tombstoneWithoutTime "X"
      = .error "timestamp: nil Timestamp" ∧
    DataStorage.tombstoneAfterGarbage.history "X"
      = [{ txId := "tx1", value := some (.malformed "\x7b" "unexpected end of JSON input"),
           timestamp := some (1700000000, 0), isDelete := false },
         { txId := "tx2", value := none, timestamp := some (1700000060, 0),
           isDelete := true }] ∧
    DataStorage.GetCropHistory DataStorage.tombstoneAfterGarbage "X"
      = .error "unexpected end of JSON input" := by
  decide

/-- C6, as far as it holds. For a key whose commit log the stub hands out, with every
timestamp converting and every non-empty value decoding, every history handler succeeds,
and the entry of each commit with an empty payload holds the delete flag of the commit
and a record with only the key field set, to the queried key, every other field at its
zero value. -/
theorem history_tombstones (stub : Stub) (key : String) (hstub : stub.historyErr key = none)
    (ht : Converts (stub.history key)) :
    (Decodes DataStorage.unmarshalCropRecord (stub.history key) →
      ∃ entries, DataStorage.GetCropHistory stub key = .ok entries ∧
        TombstonesKept (⟨key, "", ""⟩ : DataStorage.CropRecord) (stub.history key) entries) ∧
    (Decodes Defi.unmarshalCropBalance (stub.history key) →
      ∃ entries, Defi.GetCropHistory stub key = .ok entries ∧
        TombstonesKept (⟨key, .finite Finite64.zero, ""⟩ : Defi.CropBalance) (stub.history key) entries) ∧
    (Decodes SupplyChain.unmarshalCrop (stub.history key) →
      ∃ entries, SupplyChain.GetCropHistory stub key = .ok entries ∧
        TombstonesKept (⟨key, "", "", "", "", ""⟩ : SupplyChain.Crop) (stub.history key)
          entries) ∧
    (Decodes Monitoring.unmarshalCropRecord (stub.history key) →
      ∃ entries, Monitoring.GetCropRecordHistory stub key = .ok entries ∧
        TombstonesKept (⟨key, "", .finite Finite64.zero, ""⟩ : Monitoring.CropRecord) (stub.history key)
          entries) := by
  refine ⟨?_, ?_, ?_, ?_⟩
  · intro hd
    obtain ⟨entries, hrun, -, hp⟩ := projection_loop DataStorage.unmarshalCropRecord
      { id := key, data := "", timestamp := "" } _ hd ht
    exact ⟨entries, by simp [DataStorage.GetCropHistory, Stub.GetHistoryForKey_ok, hstub, hrun], hp⟩
  · intro hd
    obtain ⟨entries, hrun, -, hp⟩ := projection_loop Defi.unmarshalCropBalance
      { farmer := key, cropAmount := .finite Finite64.zero, timestamp := "" } _ hd ht
    exact ⟨entries, by simp [Defi.GetCropHistory, Stub.GetHistoryForKey_ok, hstub, hrun], hp⟩
  · intro hd
    obtain ⟨entries, hrun, -, hp⟩ := projection_loop SupplyChain.unmarshalCrop
      { cropID := key, name := "", farmer := "", currentOwner := "", fieldLocation := "",
        timestamp := "" } _ hd ht
    exact ⟨entries, by simp [SupplyChain.GetCropHistory, Stub.GetHistoryForKey_ok, hstub, hrun], hp⟩
  · intro hd
    obtain ⟨entries, hrun, -, hp⟩ := projection_loop Monitoring.unmarshalCropRecord
      { id := key, cropType := "", yield := .finite Finite64.zero, timestamp := "" } _ hd ht
    exact ⟨entries,
      by simp [Monitoring.GetCropRecordHistory, Stub.GetHistoryForKey_ok, hstub, hrun], hp⟩

theorem DataStorage.afterRemove_log :
    DataStorage.afterRemove.stub.history "X" =
      [{ txId := "tx1", value := some (DataStorage.marshalCropRecord ⟨"X", "d", "t1"⟩),
         timestamp := some (1700000000, 0), isDelete := false },
       { txId := "tx2", value := none, timestamp := some (1700000060, 0), isDelete := true }] := by
  decide!

/-- C6 on a key written once and then deleted: after data-storage `PlantCrop("X", "d")`
and `RemoveCrop("X")` the history of `X` has exactly two entries; the second has
`isDelete = true` and a record with only the id set. -/
theorem history_tombstones_witness :
    DataStorage.afterRemove.stub.historyErr "X" = none ∧
    Converts (DataStorage.afterRemove.stub.history "X") ∧
    Decodes DataStorage.unmarshalCropRecord (DataStorage.afterRemove.stub.history "X") ∧
    DataStorage.GetCropHistory DataStorage.afterRemove.stub "X" =
      .ok [{ record := ⟨"X", "d", "t1"⟩, txId := "tx1", timestamp := (1700000000, 0),
             isDelete := false },
           { record := ⟨"X", "", ""⟩, txId := "tx2", timestamp := (1700000060, 0),
             isDelete := true }] ∧
    ∃ entries, DataStorage.GetCropHistory DataStorage.afterRemove.stub "X" = .ok entries ∧
      TombstonesKept (⟨"X", "", ""⟩ : DataStorage.CropRecord)
        (DataStorage.afterRemove.stub.history "X") entries := by
  have hc : Converts (DataStorage.afterRemove.stub.history "X") := by
    intro c hc
    rw [DataStorage.afterRemove_log] at hc
    simp only [List.mem_cons, List.mem_singleton, List.not_mem_nil, or_false] at hc
    rcases hc with rfl | rfl
    · exact ⟨(1700000000, 0), by decide⟩
    · exact ⟨(1700000060, 0), by decide⟩
  have hd : Decodes DataStorage.unmarshalCropRecord (DataStorage.afterRemove.stub.history "X") := by
    intro c hc v hv
    rw [DataStorage.afterRemove_log] at hc
    simp only [List.mem_cons, List.mem_singleton, List.not_mem_nil, or_false] at hc
    rcases hc with rfl | rfl
    · simp only [Option.some.injEq] at hv
      subst hv
      exact ⟨_, DataStorage.storage_unmarshal_marshal _⟩
    · simp at hv
  exact ⟨rfl, hc, hd, by decide!,
    (history_tombstones DataStorage.afterRemove.stub "X" rfl hc).1 hd⟩

/-! ## defi: failed transfers -/

/-- C7. When the sender's balance is absent, or present and smaller than the amount,
`DistributeCrops` returns an error and stages no write, so the committed state is the state
before; with an insufficient balance the error is `<from> doesn't have enough crops`. -/
theorem Defi.distributeCrops_failure (stub : Stub) (now : Clock) (from_ to_ : String)
    (amount : Float64)
    (h : stub.state.get from_ = none ∨
      ∃ c, Defi.GetCropBalance stub from_ = .ok c ∧ c.cropAmount.lt amount = true) :
    (∃ e, (Defi.DistributeCrops stub now from_ to_ amount).result = .error e) ∧
    (Defi.DistributeCrops stub now from_ to_ amount).writes = [] ∧
    commit stub.state (Defi.DistributeCrops stub now from_ to_ amount) = stub.state ∧
    ∀ c, Defi.GetCropBalance stub from_ = .ok c →
      (Defi.DistributeCrops stub now from_ to_ amount).result
        = .error (from_ ++ " doesn't have enough crops") := by
  have key : (∃ e, Defi.GetCropBalance stub from_ = .error e) ∨
      ∃ c, Defi.GetCropBalance stub from_ = .ok c ∧
        c.cropAmount.lt amount = true := by
    rcases h with h | h
    · left
      cases hg : Defi.GetCropBalance stub from_ with
      | error e => exact ⟨e, rfl⟩
      | ok c =>
        obtain ⟨v, hv, -⟩ := Defi.getCropBalance_ok stub from_ c hg
        rw [h] at hv
        cases hv
    · right; exact h
  rcases key with ⟨e, he⟩ | ⟨c, hc, hlt⟩
  · have hval : Defi.DistributeCrops stub now from_ to_ amount
        = ⟨[], .error ("failed to get crops for " ++ from_ ++ ": " ++ e)⟩ := by
      simp [Defi.DistributeCrops, he]
    rw [hval]
    refine ⟨⟨_, rfl⟩, rfl, rfl, ?_⟩
    intro c hc
    rw [he] at hc
    cases hc
  · have hval : Defi.DistributeCrops stub now from_ to_ amount
        = ⟨[], .error (from_ ++ " doesn't have enough crops")⟩ := by
      simp [Defi.DistributeCrops, hc, hlt]
    rw [hval]
    exact ⟨⟨_, rfl⟩, rfl, rfl, fun _ _ => rfl⟩

/-- C7 after `InitLedger`: Farmer1 holds 1000, so a transfer of 1001 to Farmer2 fails with
`Farmer1 doesn't have enough crops` and leaves the ledger as it was. -/
theorem Defi.distributeCrops_failure_witness :
    Defi.GetCropBalance (Stub.healthy Defi.seeded fun _ => []) "Farmer1"
      = .ok ⟨"Farmer1", .finite (Finite64.lit 1000), "t0"⟩ ∧
    (Float64.finite (Finite64.lit 1000)).lt (Float64.lit 1001) = true ∧
    (Defi.DistributeCrops (Stub.healthy Defi.seeded fun _ => []) (fun _ => "t1")
      "Farmer1" "Farmer2" (Float64.lit 1001)).result
      = .error "Farmer1 doesn't have enough crops" ∧
    commit Defi.seeded (Defi.DistributeCrops (Stub.healthy Defi.seeded fun _ => [])
      (fun _ => "t1") "Farmer1" "Farmer2" (Float64.lit 1001)) = Defi.seeded := by
  have hread : Defi.GetCropBalance (Stub.healthy Defi.seeded fun _ => []) "Farmer1"
      = .ok ⟨"Farmer1", .finite (Finite64.lit 1000), "t0"⟩ := by decide!
  have h := Defi.distributeCrops_failure (Stub.healthy Defi.seeded fun _ => [])
    (fun _ => "t1") "Farmer1" "Farmer2" (Float64.lit 1001)
    (Or.inr ⟨⟨"Farmer1", .finite (Finite64.lit 1000), "t0"⟩, hread, by decide!⟩)
  exact ⟨hread, by decide!, h.2.2.2 _ hread, h.2.2.1⟩

/-! ## supply-chain: the farmer of a crop -/

theorem applyWrites_get (writes : List Write) :
    ∀ (s : WorldState) (k : String) (v : Payload), (applyWrites s writes).get k = some v →
      s.get k = some v ∨ Write.put k v ∈ writes := by
  induction writes with
  | nil => intro s k v h; left; exact h
  | cons w rest ih =>
    intro s k v h
    cases w with
    | put k' v' =>
      rcases ih (s.put k' v') k v h with h' | h'
      · rw [WorldState.get_put] at h'
        by_cases hk : k = k'
        · subst hk
          simp only [if_true, Option.some.injEq] at h'
          subst h'
          right; exact List.mem_cons_self _ _
        · simp only [hk, if_false] at h'
          left; exact h'
      · right; exact List.mem_cons_of_mem _ h'
    | del k' =>
      rcases ih (s.del k') k v h with h' | h'
      · rw [WorldState.get_del] at h'
        by_cases hk : k = k'
        · simp [hk] at h'
        · simp only [hk, if_false] at h'
          left; exact h'
      · right; exact List.mem_cons_of_mem _ h'

theorem applyWrites_present (writes : List Write) (hputs : ∀ w ∈ writes, ∃ k v, w = Write.put k v) :
    ∀ (s : WorldState) (k : String), s.get k ≠ none → (applyWrites s writes).get k ≠ none := by
  induction writes with
  | nil => intro s k h; exact h
  | cons w rest ih =>
    intro s k h
    obtain ⟨k', v', rfl⟩ := hputs w (List.mem_cons_self _ _)
    refine ih (fun w hw => hputs w (List.mem_cons_of_mem _ hw)) (s.put k' v') k ?_
    rw [WorldState.get_put]
    by_cases hk : k = k'
    · simp [hk]
    · simpa [hk] using h

theorem Stub.PutState_only_puts (stub : Stub) (staged : List Write) (key : String)
    (value : Payload) (hs : ∀ w ∈ staged, ∃ k v, w = Write.put k v) :
    ∀ w ∈ (stub.PutState staged key value).writes, ∃ k v, w = Write.put k v := by
  unfold Stub.PutState
  cases stub.putErr key with
  | some e => exact hs
  | none =>
    intro w hw
    simp only [List.mem_append, List.mem_singleton] at hw
    rcases hw with hw | rfl
    · exact hs w hw
    · exact ⟨_, _, rfl⟩

theorem SupplyChain.initLoop_only_puts (stub : Stub) :
    ∀ (crops : List SupplyChain.Crop) (staged : List Write),
      (∀ w ∈ staged, ∃ k v, w = Write.put k v) →
      ∀ w ∈ (SupplyChain.initLoop stub crops staged).writes, ∃ k v, w = Write.put k v := by
  intro crops
  induction crops with
  | nil => intro staged hs; simpa [SupplyChain.initLoop] using hs
  | cons c rest ih =>
    intro staged hs
    unfold SupplyChain.initLoop
    cases stub.putErr c.cropID with
    | some e => exact hs
    | none =>
      apply ih
      intro w hw
      simp only [List.mem_append, List.mem_singleton] at hw
      rcases hw with hw | rfl
      · exact hs w hw
      · exact ⟨_, _, rfl⟩

/-- No supply-chain handler stages a delete. -/
theorem SupplyChain.run_only_puts (stub : Stub) (now : Clock) (call : SupplyChain.Call) :
    ∀ w ∈ (SupplyChain.run stub now call).writes, ∃ k v, w = Write.put k v := by
  have hnil : ∀ w ∈ ([] : List Write), ∃ k v, w = Write.put k v := by
    intro w hw; simp at hw
  cases call with
  | initLedger => exact SupplyChain.initLoop_only_puts stub _ _ hnil
  | registerCrop cropID name farmer currentOwner fieldLocation =>
    simp only [SupplyChain.run, SupplyChain.RegisterCrop]
    cases SupplyChain.CropExists stub cropID with
    | error e => exact hnil
    | ok found =>
      cases found with
      | true => exact hnil
      | false => exact Stub.PutState_only_puts _ _ _ _ hnil
  | transferCrop cropID newOwner =>
    simp only [SupplyChain.run, SupplyChain.TransferCrop]
    cases SupplyChain.ReadCrop stub cropID with
    | error e => exact hnil
    | ok crop => exact Stub.PutState_only_puts _ _ _ _ hnil

theorem SupplyChain.readCrop_healthy (s : WorldState) (h : String → List KeyModification)
    (cropID : String) :
    SupplyChain.ReadCrop (Stub.healthy s h) cropID =
      match s.get cropID with
      | none => .error ("the crop " ++ cropID ++ " does not exist")
      | some cropJSON => SupplyChain.unmarshalCrop cropJSON := by
  simp only [SupplyChain.ReadCrop, Stub.GetState, Stub.healthy_getErr, Stub.healthy_state]
  cases s.get cropID <;> rfl

/-- One successful supply-chain call that is not an `InitLedger` over a seed id keeps
the crop at `cropID` present with the farmer it had. -/
theorem SupplyChain.step_keeps_farmer (stub : Stub) (now : Clock) (call : SupplyChain.Call)
    (cropID : String) (hcall : call ≠ .initLedger ∨ (cropID ≠ "C001" ∧ cropID ≠ "C002"))
    (c : SupplyChain.Crop) (v : Payload) (hv : stub.state.get cropID = some v)
    (hc : SupplyChain.unmarshalCrop v = .ok c) :
    ∃ v' c', (commit stub.state (SupplyChain.run stub now call)).get cropID = some v' ∧
      SupplyChain.unmarshalCrop v' = .ok c' ∧ c'.farmer = c.farmer := by
  unfold commit
  cases hres : (SupplyChain.run stub now call).result with
  | error e => exact ⟨v, c, hv, hc, rfl⟩
  | ok u =>
    simp only []
    have hpres := applyWrites_present _ (SupplyChain.run_only_puts stub now call) stub.state cropID
      (by rw [hv]; simp)
    cases hget : (applyWrites stub.state (SupplyChain.run stub now call).writes).get cropID with
    | none => exact absurd hget hpres
    | some v' =>
      rcases applyWrites_get _ _ _ _ hget with hold | hnew
      · rw [hv] at hold
        cases hold
        exact ⟨v, c, rfl, hc, rfl⟩
      · rcases SupplyChain.chain_run_writes stub now call cropID v' hnew with
          ⟨c', rfl, -, hwhy⟩ | ⟨old, owner, ts, hread, rfl⟩
        · rcases hwhy with ⟨hinit, hseed⟩ | habs
          · rcases hcall with hcall | ⟨h1, h2⟩
            · exact absurd hinit hcall
            · rcases hseed with hseed | hseed
              · exact absurd hseed h1
              · exact absurd hseed h2
          · rw [hv] at habs
            cases habs
        · obtain ⟨w, hw, hdec⟩ := SupplyChain.readCrop_ok stub cropID old hread
          rw [hv] at hw
          cases hw
          rw [hc] at hdec
          cases hdec
          exact ⟨_, _, rfl, SupplyChain.unmarshal_marshalCrop _, rfl⟩

theorem SupplyChain.steps_keep_farmer (cropID : String) (s₁ s₂ : WorldState)
    (hsteps : Steps SupplyChain.run
      (fun call => call ≠ .initLedger ∨ (cropID ≠ "C001" ∧ cropID ≠ "C002")) s₁ s₂)
    (c₁ : SupplyChain.Crop) (v₁ : Payload) (hv : s₁.get cropID = some v₁)
    (hc : SupplyChain.unmarshalCrop v₁ = .ok c₁) :
    ∃ v₂ c₂, s₂.get cropID = some v₂ ∧ SupplyChain.unmarshalCrop v₂ = .ok c₂ ∧
      c₂.farmer = c₁.farmer := by
  induction hsteps with
  | start => exact ⟨v₁, c₁, hv, hc, rfl⟩
  | step stub now call _ ha _ ih =>
    obtain ⟨v, c, hv', hc', hf⟩ := ih
    obtain ⟨v'', c'', h1, h2, h3⟩ :=
      SupplyChain.step_keeps_farmer stub now call cropID ha c v hv' hc'
    exact ⟨v'', c'', h1, h2, h3.trans hf⟩

/-- C8, as stated, fails: a crop registered under the seed id `C001` with farmer `Alice`
is present before and after a later successful `InitLedger`, which rewrites its farmer to
`Farmer1`. -/
theorem SupplyChain.initLedger_rewrites_farmer :
    (SupplyChain.RegisterCrop (Stub.healthy [] fun _ => []) (fun _ => "t1")
      "C001" "Rice" "Alice" "O1" "L1").result = .ok () ∧
    (SupplyChain.InitLedger (Stub.healthy SupplyChain.afterRegisterSeedId fun _ => [])
      fun _ => "t2").result = .ok () ∧
    SupplyChain.ReadCrop (Stub.healthy SupplyChain.afterRegisterSeedId fun _ => []) "C001"
      = .ok ⟨"C001", "Rice", "Alice", "O1", "L1", "t1"⟩ ∧
    SupplyChain.ReadCrop (Stub.healthy SupplyChain.afterLateInit fun _ => []) "C001"
      = .ok ⟨"C001", "Wheat", "Farmer1", "Owner1", "Field1", "t2"⟩ ∧
    "Alice" ≠ "Farmer1" := by
  decide

/-- C8, amended: along every sequence of successful supply-chain handler calls
(`RegisterCrop` and `TransferCrop` with any arguments, and `InitLedger` as long as `cropID` is
not one of the seed ids `C001`, `C002`), if the crop at `cropID` is present in a state of the
sequence and in a later one, its farmer is the same in both. -/
theorem SupplyChain.farmer_fixed (cropID : String) (s₁ s₂ : WorldState)
    (hsteps : Steps SupplyChain.run
      (fun call => call ≠ .initLedger ∨ (cropID ≠ "C001" ∧ cropID ≠ "C002")) s₁ s₂)
    (c₁ c₂ : SupplyChain.Crop)
    (h₁ : SupplyChain.ReadCrop (Stub.healthy s₁ fun _ => []) cropID = .ok c₁)
    (h₂ : SupplyChain.ReadCrop (Stub.healthy s₂ fun _ => []) cropID = .ok c₂) :
    c₁.farmer = c₂.farmer := by
  obtain ⟨v₁, hv₁, hc₁⟩ := SupplyChain.readCrop_ok _ cropID c₁ h₁
  obtain ⟨v₂, c, hv₂, hc, hf⟩ := SupplyChain.steps_keep_farmer cropID s₁ s₂ hsteps c₁ v₁ hv₁ hc₁
  obtain ⟨w, hw, hdec⟩ := SupplyChain.readCrop_ok _ cropID c₂ h₂
  simp only [Stub.healthy_state] at hw
  rw [hv₂] at hw
  cases hw
  rw [hc] at hdec
  cases hdec
  exact hf.symm

/-- C8, amended, on scenario 6 of the specification: the crop `C1` registered with farmer
`F1` still has farmer `F1` after `TransferCrop("C1", "O2")`. -/
theorem SupplyChain.farmer_fixed_witness :
    Steps SupplyChain.run
      (fun call => call ≠ .initLedger ∨ ("C1" ≠ "C001" ∧ "C1" ≠ "C002"))
      SupplyChain.afterRegister SupplyChain.afterTransfer ∧
    SupplyChain.ReadCrop (Stub.healthy SupplyChain.afterRegister fun _ => []) "C1"
      = .ok ⟨"C1", "Rice", "F1", "O1", "L1", "t1"⟩ ∧
    SupplyChain.ReadCrop (Stub.healthy SupplyChain.afterTransfer fun _ => []) "C1"
      = .ok ⟨"C1", "Rice", "F1", "O2", "L1", "t2"⟩ ∧
    "F1" = "F1" := by
  have hs : Steps SupplyChain.run
      (fun call => call ≠ .initLedger ∨ ("C1" ≠ "C001" ∧ "C1" ≠ "C002"))
      SupplyChain.afterRegister SupplyChain.afterTransfer :=
    Steps.step (Stub.healthy SupplyChain.afterRegister fun _ => []) (fun _ => "t2")
      (SupplyChain.Call.transferCrop "C1" "O2") Steps.start
      (Or.inl (by intro h; cases h)) (by decide)
  have h1 : SupplyChain.ReadCrop (Stub.healthy SupplyChain.afterRegister fun _ => []) "C1"
      = .ok ⟨"C1", "Rice", "F1", "O1", "L1", "t1"⟩ := by decide
  have h2 : SupplyChain.ReadCrop (Stub.healthy SupplyChain.afterTransfer fun _ => []) "C1"
      = .ok ⟨"C1", "Rice", "F1", "O2", "L1", "t2"⟩ := by decide
  exact ⟨hs, h1, h2, SupplyChain.farmer_fixed "C1" _ _ hs _ _ h1 h2⟩

/-! ## supply-chain: transfers -/

theorem SupplyChain.readCrop_of_getErr (stub : Stub) (cropID : String)
    (hget : stub.getErr cropID = none) :
    SupplyChain.ReadCrop stub cropID =
      match stub.state.get cropID with
      | none => .error ("the crop " ++ cropID ++ " does not exist")
      | some cropJSON => SupplyChain.unmarshalCrop cropJSON := by
  simp only [SupplyChain.ReadCrop, Stub.GetState, hget]
  cases stub.state.get cropID <;> rfl

/-- C9. Over a stub whose read and write of `cropID` do not fail: when `cropID` holds a
decodable crop `c`, `TransferCrop(cropID, newOwner)` succeeds and stages one write, to
`cropID`: the stored crop afterwards is `c` with `currentOwner` set to `newOwner` and a
new timestamp, every other key holds what it held, and a second transfer to the same
owner leaves `currentOwner = newOwner` with `cropID`, name, farmer and fieldLocation as
in `c`.  When `cropID` is absent the handler fails with
`the crop <cropID> does not exist` and stages no write. -/
theorem SupplyChain.transferCrop_frame (stub : Stub) (now now' : Clock)
    (cropID newOwner : String)
    (hget : stub.getErr cropID = none) (hput : stub.putErr cropID = none) :
    (∀ c, SupplyChain.ReadCrop stub cropID = .ok c →
      (SupplyChain.TransferCrop stub now cropID newOwner).result = .ok () ∧
      (SupplyChain.TransferCrop stub now cropID newOwner).writes
        = [.put cropID (SupplyChain.marshalCrop
            { c with currentOwner := newOwner, timestamp := now 0 })] ∧
      SupplyChain.ReadCrop
          { stub with
            state := commit stub.state (SupplyChain.TransferCrop stub now cropID newOwner) }
          cropID = .ok { c with currentOwner := newOwner, timestamp := now 0 } ∧
      (∀ key, key ≠ cropID →
        (commit stub.state (SupplyChain.TransferCrop stub now cropID newOwner)).get key
          = stub.state.get key) ∧
      SupplyChain.ReadCrop
          { stub with
            state :=
              commit (commit stub.state (SupplyChain.TransferCrop stub now cropID newOwner))
                (SupplyChain.TransferCrop
                  { stub with
                    state :=
                      commit stub.state (SupplyChain.TransferCrop stub now cropID newOwner) }
                  now' cropID newOwner) }
          cropID = .ok { c with currentOwner := newOwner, timestamp := now' 0 }) ∧
    (stub.state.get cropID = none →
      (SupplyChain.TransferCrop stub now cropID newOwner).result
        = .error ("the crop " ++ cropID ++ " does not exist") ∧
      (SupplyChain.TransferCrop stub now cropID newOwner).writes = []) := by
  have once : ∀ (stub : Stub) (now : Clock) (c : SupplyChain.Crop),
      stub.putErr cropID = none → SupplyChain.ReadCrop stub cropID = .ok c →
      SupplyChain.TransferCrop stub now cropID newOwner
        = ⟨[.put cropID (SupplyChain.marshalCrop
            { c with currentOwner := newOwner, timestamp := now 0 })], .ok ()⟩ := by
    intro stub now c hp hc
    simp [SupplyChain.TransferCrop, hc, Stub.PutState, hp]
  have after : ∀ (stub : Stub) (now : Clock) (c : SupplyChain.Crop),
      stub.getErr cropID = none → stub.putErr cropID = none →
      SupplyChain.ReadCrop stub cropID = .ok c →
      SupplyChain.ReadCrop
          { stub with
            state := commit stub.state (SupplyChain.TransferCrop stub now cropID newOwner) }
          cropID = .ok { c with currentOwner := newOwner, timestamp := now 0 } := by
    intro stub now c hg hp hc
    rw [once stub now c hp hc, SupplyChain.readCrop_of_getErr _ _ (by exact hg)]
    simp [commit, applyWrites, WorldState.get_put, SupplyChain.unmarshal_marshalCrop]
  constructor
  · intro c hc
    refine ⟨by rw [once stub now c hput hc], by rw [once stub now c hput hc],
      after stub now c hget hput hc, ?_, ?_⟩
    · intro key hkey
      rw [once stub now c hput hc]
      simp [commit, applyWrites, WorldState.get_put, hkey]
    · exact after
        { stub with
          state := commit stub.state (SupplyChain.TransferCrop stub now cropID newOwner) }
        now' { c with currentOwner := newOwner, timestamp := now 0 } hget hput
        (after stub now c hget hput hc)
  · intro habs
    have hread : SupplyChain.ReadCrop stub cropID
        = .error ("the crop " ++ cropID ++ " does not exist") := by
      rw [SupplyChain.readCrop_of_getErr _ _ hget, habs]
    simp [SupplyChain.TransferCrop, hread]

/-- C9 on scenario 6 of the specification: after
`RegisterCrop("C1", "Rice", "F1", "O1", "L1")` and `TransferCrop("C1", "O2")`, `ReadCrop("C1")`
has `currentOwner = "O2"` and `farmer = "F1"`, also after a second transfer to `O2`. -/
theorem SupplyChain.transferCrop_frame_witness :
    SupplyChain.ReadCrop (Stub.healthy SupplyChain.afterRegister fun _ => []) "C1"
      = .ok ⟨"C1", "Rice", "F1", "O1", "L1", "t1"⟩ ∧
    SupplyChain.ReadCrop (Stub.healthy SupplyChain.afterTransfer fun _ => []) "C1"
      = .ok ⟨"C1", "Rice", "F1", "O2", "L1", "t2"⟩ ∧
    SupplyChain.ReadCrop (Stub.healthy SupplyChain.afterSecondTransfer fun _ => []) "C1"
      = .ok ⟨"C1", "Rice", "F1", "O2", "L1", "t3"⟩ := by
  have h1 : SupplyChain.ReadCrop (Stub.healthy SupplyChain.afterRegister fun _ => []) "C1"
      = .ok ⟨"C1", "Rice", "F1", "O1", "L1", "t1"⟩ := by decide
  have h := (SupplyChain.transferCrop_frame (Stub.healthy SupplyChain.afterRegister fun _ => [])
    (fun _ => "t2") (fun _ => "t3") "C1" "O2" rfl (by decide)).1 _ h1
  exact ⟨h1, h.2.2.1, h.2.2.2.2⟩

/-! ## Create handlers -/

/-- C11 fails as stated: encoding a record does not always succeed. `json.Marshal`
refuses a `CropBalance`, a `PlantingInfo` or a monitoring `CropRecord` whose `float64`
field is an infinity or NaN, and such a record arises inside a handler: with A holding
1e308, `HarvestCrops("A", 1e308)` computes the amount +Inf and fails in the encoding. -/
theorem codec_fails_on_non_finite :
    Defi.marshalCropBalance ⟨"A", .posInf, "t"⟩ = .error "json: unsupported value: +Inf" ∧
    Defi.marshalPlantingInfo ⟨"A", .finite Finite64.zero, .nan, "t"⟩
      = .error "json: unsupported value: NaN" ∧
    Monitoring.marshalCropRecord ⟨"C", "Rice", .negInf, "t"⟩
      = .error "json: unsupported value: -Inf" ∧
    Defi.GetCropBalance (Stub.healthy Defi.nearOverflow fun _ => []) "A"
      = .ok ⟨"A", .finite (Finite64.lit 1e308), "t0"⟩ ∧
    (Float64.finite (Finite64.lit 1e308)).add (.finite (Finite64.lit 1e308)) = .posInf ∧
    (Defi.HarvestCrops (Stub.healthy Defi.nearOverflow fun _ => []) (fun _ => "t2") "A"
        (Float64.lit 1e308)).result = .error "json: unsupported value: +Inf" := by
  decide!

/-- C11, as far as it holds. Encoding a data-storage `CropRecord` or a supply-chain `Crop`
always succeeds; encoding a defi `CropBalance`, a defi `PlantingInfo` or a monitoring
`CropRecord` succeeds exactly when its `float64` fields are finite; and whenever encoding
succeeds, decoding the encoding gives back the record, field by field. `RegisterCrop` on
an absent key followed by `ReadCrop` of that key returns exactly the registered field
values with the timestamp of the registration. -/
theorem codec_round_trip :
    (∀ r : DataStorage.CropRecord,
      DataStorage.unmarshalCropRecord (DataStorage.marshalCropRecord r) = .ok r) ∧
    (∀ r : Defi.CropBalance,
      ((∃ p, Defi.marshalCropBalance r = .ok p) ↔ ∃ x, r.cropAmount = .finite x) ∧
      ∀ p, Defi.marshalCropBalance r = .ok p → Defi.unmarshalCropBalance p = .ok r) ∧
    (∀ r : Defi.PlantingInfo,
      ((∃ p, Defi.marshalPlantingInfo r = .ok p) ↔
        ∃ x y, r.plantedAmount = .finite x ∧ r.yield = .finite y) ∧
      ∀ p, Defi.marshalPlantingInfo r = .ok p → Defi.unmarshalPlantingInfo p = .ok r) ∧
    (∀ r : Monitoring.CropRecord,
      ((∃ p, Monitoring.marshalCropRecord r = .ok p) ↔ ∃ x, r.yield = .finite x) ∧
      ∀ p, Monitoring.marshalCropRecord r = .ok p → Monitoring.unmarshalCropRecord p = .ok r) ∧
    (∀ r : SupplyChain.Crop, SupplyChain.unmarshalCrop (SupplyChain.marshalCrop r) = .ok r) ∧
    (∀ (stub : Stub) (now : Clock) (cropID name farmer currentOwner fieldLocation : String),
      stub.getErr cropID = none → stub.putErr cropID = none → stub.state.get cropID = none →
      (SupplyChain.RegisterCrop stub now cropID name farmer currentOwner fieldLocation).result
        = .ok () ∧
      SupplyChain.ReadCrop
        (Stub.healthy
          (commit stub.state
            (SupplyChain.RegisterCrop stub now cropID name farmer currentOwner fieldLocation))
          stub.history)
        cropID = .ok ⟨cropID, name, farmer, currentOwner, fieldLocation, now 0⟩) := by
  refine ⟨DataStorage.storage_unmarshal_marshal, ?_, ?_, ?_,
    SupplyChain.unmarshal_marshalCrop, ?_⟩
  · intro r
    refine ⟨⟨?_, ?_⟩, ?_⟩
    · rintro ⟨p, hp⟩
      obtain ⟨x, hx, -⟩ := Defi.marshalCropBalance_ok r p hp
      exact ⟨x, hx⟩
    · rintro ⟨x, hx⟩
      obtain ⟨farmer, cropAmount, timestamp⟩ := r
      cases hx
      exact ⟨_, Defi.marshalCropBalance_finite farmer x timestamp⟩
    · intro p hp
      obtain ⟨x, hx, rfl⟩ := Defi.marshalCropBalance_ok r p hp
      obtain ⟨farmer, cropAmount, timestamp⟩ := r
      cases hx
      exact Defi.unmarshal_cropBalanceJSON farmer x timestamp
  · intro r
    refine ⟨⟨?_, ?_⟩, ?_⟩
    · rintro ⟨p, hp⟩
      obtain ⟨x, y, hx, hy, -⟩ := Defi.marshalPlantingInfo_ok r p hp
      exact ⟨x, y, hx, hy⟩
    · rintro ⟨x, y, hx, hy⟩
      obtain ⟨farmer, plantedAmount, yield, timestamp⟩ := r
      cases hx
      cases hy
      exact ⟨_, Defi.marshalPlantingInfo_finite farmer x y timestamp⟩
    · intro p hp
      obtain ⟨x, y, hx, hy, rfl⟩ := Defi.marshalPlantingInfo_ok r p hp
      obtain ⟨farmer, plantedAmount, yield, timestamp⟩ := r
      cases hx
      cases hy
      exact Defi.unmarshal_plantingInfoJSON farmer x y timestamp
  · intro r
    refine ⟨⟨?_, ?_⟩, ?_⟩
    · rintro ⟨p, hp⟩
      obtain ⟨x, hx, -⟩ := Monitoring.marshalCropRecord_ok r p hp
      exact ⟨x, hx⟩
    · rintro ⟨x, hx⟩
      obtain ⟨id, cropType, yield, timestamp⟩ := r
      cases hx
      exact ⟨_, Monitoring.marshalCropRecord_finite id cropType x timestamp⟩
    · intro p hp
      obtain ⟨x, hx, rfl⟩ := Monitoring.marshalCropRecord_ok r p hp
      obtain ⟨id, cropType, yield, timestamp⟩ := r
      cases hx
      exact Monitoring.monitoring_unmarshal_marshal id cropType x timestamp
  · intro stub now cropID name farmer currentOwner fieldLocation hget hput habs
    have hval : SupplyChain.RegisterCrop stub now cropID name farmer currentOwner fieldLocation
        = ⟨[.put cropID (SupplyChain.marshalCrop
            ⟨cropID, name, farmer, currentOwner, fieldLocation, now 0⟩)], .ok ()⟩ := by
      simp [SupplyChain.RegisterCrop, SupplyChain.CropExists, Stub.GetState, hget, habs,
        Stub.PutState, hput]
    rw [hval, SupplyChain.readCrop_healthy]
    refine ⟨rfl, ?_⟩
    simp [commit, applyWrites, WorldState.get_put, SupplyChain.unmarshal_marshalCrop]

/-- C11, as far as it holds, on scenario 6 of the specification: after
`RegisterCrop("C1", "Rice", "F1", "O1", "L1")` on the empty ledger, `ReadCrop("C1")` returns
the registered crop; and the balance of 600 that scenario 3 stores encodes and decodes
to itself. -/
theorem codec_round_trip_witness :
    (Stub.healthy [] fun _ => []).getErr "C1" = none ∧
    (Stub.healthy [] fun _ => []).putErr "C1" = none ∧
    (Stub.healthy [] fun _ => []).state.get "C1" = none ∧
    SupplyChain.ReadCrop (Stub.healthy SupplyChain.afterRegister fun _ => []) "C1"
      = .ok ⟨"C1", "Rice", "F1", "O1", "L1", "t1"⟩ ∧
    SupplyChain.unmarshalCrop (SupplyChain.marshalCrop ⟨"C1", "Rice", "F1", "O1", "L1", "t1"⟩)
      = .ok ⟨"C1", "Rice", "F1", "O1", "L1", "t1"⟩ ∧
    Defi.marshalCropBalance ⟨"Farmer1", .finite (Finite64.lit 600), "t1"⟩
      = .ok (Defi.cropBalanceJSON "Farmer1" (Finite64.lit 600) "t1") ∧
    Defi.unmarshalCropBalance (Defi.cropBalanceJSON "Farmer1" (Finite64.lit 600) "t1")
      = .ok ⟨"Farmer1", .finite (Finite64.lit 600), "t1"⟩ :=
  ⟨rfl, by decide, rfl,
    (codec_round_trip.2.2.2.2.2 (Stub.healthy [] fun _ => []) (fun _ => "t1")
      "C1" "Rice" "F1" "O1" "L1" rfl (by decide) rfl).2,
    codec_round_trip.2.2.2.2.1 _,
    rfl,
    (codec_round_trip.2.1 ⟨"Farmer1", .finite (Finite64.lit 600), "t1"⟩).2 _ rfl⟩

/-! ## Wall clock -/

/-- C12 at its failing input: two executions of data-storage `PlantCrop("X", "d")` over
the same stub (the empty ledger) that differ only in what the peer's wall clock reads both
succeed and stage different payloads; two such executions of defi
`PlantCrops("Farmer1", 100)` over the seeded ledger also stage the planting record under
different keys. -/
theorem wall_clock_in_write_set :
    (DataStorage.PlantCrop (Stub.healthy [] fun _ => []) (fun _ => "t1") "X" "d").result
      = .ok () ∧
    (DataStorage.PlantCrop (Stub.healthy [] fun _ => []) (fun _ => "t2") "X" "d").result
      = .ok () ∧
    (DataStorage.PlantCrop (Stub.healthy [] fun _ => []) (fun _ => "t1") "X" "d").writes
      = [.put "X" (DataStorage.marshalCropRecord ⟨"X", "d", "t1"⟩)] ∧
    (DataStorage.PlantCrop (Stub.healthy [] fun _ => []) (fun _ => "t2") "X" "d").writes
      = [.put "X" (DataStorage.marshalCropRecord ⟨"X", "d", "t2"⟩)] ∧
    (DataStorage.PlantCrop (Stub.healthy [] fun _ => []) (fun _ => "t1") "X" "d").writes
      ≠ (DataStorage.PlantCrop (Stub.healthy [] fun _ => []) (fun _ => "t2") "X" "d").writes ∧
    (Defi.PlantCrops (Stub.healthy Defi.seeded fun _ => []) (fun _ => "t1") "Farmer1"
        (Float64.lit 100)).writes
      = [.put "Farmer1" (Defi.cropBalanceJSON "Farmer1" (Finite64.lit 900) "t1"),
         .put "Planting_Farmer1_t1"
           (Defi.plantingInfoJSON "Farmer1" (Finite64.lit 100) (Finite64.lit 0) "t1")] ∧
    (Defi.PlantCrops (Stub.healthy Defi.seeded fun _ => []) (fun _ => "t2") "Farmer1"
        (Float64.lit 100)).writes
      = [.put "Farmer1" (Defi.cropBalanceJSON "Farmer1" (Finite64.lit 900) "t2"),
         .put "Planting_Farmer1_t2"
           (Defi.plantingInfoJSON "Farmer1" (Finite64.lit 100) (Finite64.lit 0) "t2")] := by
  decide!

/-! ## defi: failed balance reads in HarvestCrops -/

/-- C13 at its failing inputs.  Over the seeded ledger with a stub whose `GetState` fails
for Farmer1, `GetCropBalance` returns the stub's error, yet `HarvestCrops("Farmer1", 5)`
returns nil and stages a write that replaces the balance 1000 by 5.  Over a ledger whose
key Farmer1 holds bytes that do not decode, `GetCropBalance` returns the decoding error,
yet `HarvestCrops("Farmer1", 5)` returns nil and overwrites the payload. -/
theorem Defi.harvestCrops_swallows_read_errors :
    Defi.GetCropBalance Defi.failingRead "Farmer1"
      = .error "failed to read crops from world state: ledger read failed" ∧
    Defi.balance Defi.seeded "Farmer1" = some (Finite64.lit 1000) ∧
    (Defi.HarvestCrops Defi.failingRead (fun _ => "t1") "Farmer1" (Float64.lit 5)).result
      = .ok () ∧
    (Defi.HarvestCrops Defi.failingRead (fun _ => "t1") "Farmer1" (Float64.lit 5)).writes
      = [.put "Farmer1" (Defi.cropBalanceJSON "Farmer1" (Finite64.lit 5) "t1")] ∧
    Defi.balance
      (commit Defi.seeded
        (Defi.HarvestCrops Defi.failingRead (fun _ => "t1") "Farmer1" (Float64.lit 5)))
      "Farmer1" = some (Finite64.lit 5) ∧
    Defi.GetCropBalance (Stub.healthy Defi.corrupted fun _ => []) "Farmer1"
      = .error "invalid character 'o' in literal null (expecting 'u')" ∧
    (Defi.HarvestCrops (Stub.healthy Defi.corrupted fun _ => []) (fun _ => "t1")
      "Farmer1" (Float64.lit 5)).result = .ok () ∧
    Defi.corrupted.get "Farmer1"
      = some (.malformed "not json" "invalid character 'o' in literal null (expecting 'u')") ∧
    (commit Defi.corrupted
      (Defi.HarvestCrops (Stub.healthy Defi.corrupted fun _ => []) (fun _ => "t1")
        "Farmer1" (Float64.lit 5))).get "Farmer1"
      = some (Defi.cropBalanceJSON "Farmer1" (Finite64.lit 5) "t1") := by
  decide!

/-! ## defi: a transfer to oneself -/

/-- C14 at its failing input: after `InitLedger`, `DistributeCrops("Farmer1", "Farmer1", 400)`
succeeds and stages two writes to Farmer1, the debited balance 600 and then the credited
balance 1400; the last write stands, so Farmer1 goes from 1000 to 1400 and the sum of all
balances from 1500 to 1900. -/
theorem Defi.self_transfer_mints :
    Defi.balance Defi.seeded "Farmer1" = some (Finite64.lit 1000) ∧
    (Defi.DistributeCrops (Stub.healthy Defi.seeded fun _ => []) (fun _ => "t1")
      "Farmer1" "Farmer1" (Float64.lit 400)).result = .ok () ∧
    (Defi.DistributeCrops (Stub.healthy Defi.seeded fun _ => []) (fun _ => "t1")
      "Farmer1" "Farmer1" (Float64.lit 400)).writes
      = [.put "Farmer1" (Defi.cropBalanceJSON "Farmer1" (Finite64.lit 600) "t1"),
         .put "Farmer1" (Defi.cropBalanceJSON "Farmer1" (Finite64.lit 1400) "t1")] ∧
    Defi.balance Defi.afterSelfTransfer "Farmer1" = some (Finite64.lit 1400) ∧
    Defi.totalBalance Defi.seeded = 1500 ∧
    Defi.totalBalance Defi.afterSelfTransfer = 1900 := by
  decide!

/-! ## defi: the two behaviours in general -/

/-- `HarvestCrops` on a stub whose write of the key works: whatever error the read
returns, the handler goes on with a fresh zero balance, and when the new amount encodes
it succeeds and stores it; when the read succeeds it goes on with the balance read. -/
theorem Defi.harvestCrops_any_read (stub : Stub) (now : Clock) (farmer : String)
    (amount : Float64) (hput : stub.putErr farmer = none) :
    (∀ e, Defi.GetCropBalance stub farmer = .error e →
      Defi.HarvestCrops stub now farmer amount
        = match Defi.marshalCropBalance
              ⟨farmer, (Float64.lit 0.0).add amount, now 1⟩ with
          | .error err => ⟨[], .error err⟩
          | .ok cropJSON => ⟨[.put farmer cropJSON], .ok ()⟩) ∧
    (∀ c, Defi.GetCropBalance stub farmer = .ok c →
      Defi.HarvestCrops stub now farmer amount
        = match Defi.marshalCropBalance
              { c with cropAmount := c.cropAmount.add amount, timestamp := now 0 } with
          | .error err => ⟨[], .error err⟩
          | .ok cropJSON => ⟨[.put farmer cropJSON], .ok ()⟩) := by
  constructor
  · intro e he
    simp only [Defi.HarvestCrops, Defi.orNewBalance, he]
    cases Defi.marshalCropBalance ⟨farmer, (Float64.lit 0.0).add amount, now 1⟩ <;>
      simp [Stub.PutState, hput]
  · intro c hc
    simp only [Defi.HarvestCrops, Defi.orNewBalance, hc]
    cases Defi.marshalCropBalance
      { c with cropAmount := c.cropAmount.add amount, timestamp := now 0 } <;>
      simp [Stub.PutState, hput]

/-- `DistributeCrops(A, A, amount)` over a stub without faults, with the balance `b` of `A`
present and at least `amount`, and the difference and the sum finite: the handler
succeeds and the balance of `A` afterwards is the sum of `b` and `amount`. -/
theorem Defi.distributeCrops_self (s : WorldState) (hist : String → List KeyModification)
    (now : Clock) (farmer : String) (amount : Float64) (x y : Finite64) (c : Defi.CropBalance)
    (hkey : farmer ≠ "")
    (hread : Defi.GetCropBalance (Stub.healthy s hist) farmer = .ok c)
    (hamt : c.cropAmount.lt amount = false)
    (hx : c.cropAmount.sub amount = .finite x)
    (hy : c.cropAmount.add amount = .finite y) :
    (Defi.DistributeCrops (Stub.healthy s hist) now farmer farmer amount).result = .ok () ∧
    Defi.balance (commit s (Defi.DistributeCrops (Stub.healthy s hist) now farmer farmer amount))
      farmer = some y := by
  have hval : Defi.DistributeCrops (Stub.healthy s hist) now farmer farmer amount =
      ⟨[.put farmer (Defi.cropBalanceJSON c.farmer x (now 0)),
        .put farmer (Defi.cropBalanceJSON c.farmer y (now 1))], .ok ()⟩ := by
    simp [Defi.DistributeCrops, Defi.orNewBalance, hread, hamt, hx, hy, Stub.PutState,
      Outcome.andThen, Defi.marshalCropBalance, marshalFloat64, Stub.healthy_putErr, hkey,
      Defi.cropBalanceJSON]
  rw [hval]
  refine ⟨rfl, ?_⟩
  refine Defi.balance_of_stored _ _ c.farmer y (now 1) ?_
  simp [commit, applyWrites, WorldState.get_put]

/-- The amounts `DistributeCrops` stores are `float64` sums, not exact ones: after
`InitLedger`, the transfer of 0.1 from Farmer1 to Farmer2 succeeds, and the stored
balance of Farmer2 is the `float64` nearest to 500 plus the `float64` 0.1, which is not
their exact sum. -/
theorem Defi.distributeCrops_rounds :
    (Defi.DistributeCrops (Stub.healthy Defi.seeded fun _ => []) (fun _ => "t1")
      "Farmer1" "Farmer2" (Float64.lit 0.1)).result = .ok () ∧
    Defi.balance Defi.seeded "Farmer2" = some (Finite64.lit 500) ∧
    Defi.balance
      (commit Defi.seeded
        (Defi.DistributeCrops (Stub.healthy Defi.seeded fun _ => []) (fun _ => "t1")
          "Farmer1" "Farmer2" (Float64.lit 0.1)))
      "Farmer2" = some (Finite64.lit 500.1) ∧
    (Finite64.lit 500.1).toRat ≠ (Finite64.lit 500).toRat + (Finite64.lit 0.1).toRat := by
  decide!

